import Mathlib

/-!
# Verification of the amplifier GitHub tool module

A shallow embedding, in Lean, of the credential-resolution, repository
access-control, dispatch/username-normalization and list-issues fan-out
logic of the `amplifier_module_tool_github` package
(`manager.py`, `unified_tool.py`, `tools/base.py`, `tools/issues/list.py`),
together with theorems checking the module's specification against it.

Conventions of the embedding:
* Python strings are Lean `String`s; character-level parsing is done on
  `List Char` (`String.data`).
* Python regular-expression matches occurring in the source are translated
  into explicit, executable parsing functions (the three patterns of
  `_normalize_repository` are simple enough that their backtracking
  behaviour is deterministic; the translation is commented step by step).
* `str.strip()` is modelled on the ASCII whitespace characters
  (space, tab, newline, carriage return, vertical tab, form feed); no
  input considered in this development contains non-ASCII whitespace.
* Code that raises exceptions is modelled in the `Except` monad; a
  `try/except` block becomes a `match` on the `Except` value.
-/

set_option autoImplicit false

namespace GitHubTool

/-! ## Repository normalization (`GitHubManager._normalize_repository`) -/

/-- ASCII model of the whitespace class used by Python's `str.strip()`. -/
def isPyWs (c : Char) : Bool :=
  c = ' ' || c = '\t' || c = '\n' || c = '\r' || c = '\x0b' || c = '\x0c'

/-- `repo.strip()` on the character list: drop whitespace at both ends. -/
def pyStripCL (l : List Char) : List Char :=
  ((l.dropWhile isPyWs).reverse.dropWhile isPyWs).reverse

/-- The suffix handling of the lazy group `([^/]+/[^/]+?)(?:\.git)?` in
patterns 1 and 2 of `_normalize_repository`: the lazy `[^/]+?` together
with the optional `(?:\.git)?` strips exactly one trailing `.git` from the
final slash-free segment, provided a non-empty remainder is left. -/
def stripDotGit (c : List Char) : List Char :=
  if 4 < c.length ∧ c.reverse.take 4 = ['t', 'i', 'g', '.'] then
    (c.reverse.drop 4).reverse
  else c

/-- Shared tail of patterns 1 and 2: `([^/]+/[^/]+?)(?:\.git)?/?$` when
`allowSlash = true` (HTTPS pattern) and `([^/]+/[^/]+?)(?:\.git)?$` when
`allowSlash = false` (SSH pattern).  Returns the captured group. -/
def ownerRepoTail (allowSlash : Bool) (t : List Char) : Option (List Char) :=
  match t.dropWhile (fun c => c ≠ '/') with
  | '/' :: rest =>
    if t.takeWhile (fun c => c ≠ '/') = [] then none
    else if rest.takeWhile (fun c => c ≠ '/') = [] then none
    else if rest.dropWhile (fun c => c ≠ '/') = [] ∨
            (allowSlash ∧ rest.dropWhile (fun c => c ≠ '/') = ['/']) then
      some (t.takeWhile (fun c => c ≠ '/') ++
        '/' :: stripDotGit (rest.takeWhile (fun c => c ≠ '/')))
    else none
  | _ => none

/-- Pattern 1 of `_normalize_repository`:
`re.match(r'https?://[^/]+/([^/]+/[^/]+?)(?:\.git)?/?$', repo)`.
After the literal `http`, the alternatives `s://` and `://` are mutually
exclusive, so the match is deterministic. -/
def httpsMatchCL (s : List Char) : Option (List Char) :=
  match s with
  | 'h' :: 't' :: 't' :: 'p' :: 's' :: ':' :: '/' :: '/' :: r => httpsHostPart r
  | 'h' :: 't' :: 't' :: 'p' :: ':' :: '/' :: '/' :: r => httpsHostPart r
  | _ => none
where
  /-- The `[^/]+/` host part followed by the owner/repo tail. -/
  httpsHostPart (r : List Char) : Option (List Char) :=
    match r.dropWhile (fun c => c ≠ '/') with
    | '/' :: t =>
      if r.takeWhile (fun c => c ≠ '/') = [] then none else ownerRepoTail true t
    | _ => none

/-- Pattern 2 of `_normalize_repository`:
`re.match(r'git@[^:]+:([^/]+/[^/]+?)(?:\.git)?$', repo)`.
The user part is the literal `git`; `[^:]+` is the host. -/
def sshMatchCL (s : List Char) : Option (List Char) :=
  match s with
  | 'g' :: 'i' :: 't' :: '@' :: r =>
    match r.dropWhile (fun c => c ≠ ':') with
    | ':' :: t =>
      if r.takeWhile (fun c => c ≠ ':') = [] then none else ownerRepoTail false t
    | _ => none
  | _ => none

/-- Pattern 3 of `_normalize_repository`:
`re.match(r'^[^/]+/[^/]+$', repo)` as a Boolean test. -/
def directMatchB (s : List Char) : Bool :=
  match s.dropWhile (fun c => c ≠ '/') with
  | '/' :: b => s.takeWhile (fun c => c ≠ '/') ≠ [] && b ≠ [] && b.all (fun c => c ≠ '/')
  | _ => false

/-- `GitHubManager._normalize_repository` on character lists: strip,
then try the HTTPS pattern, the SSH pattern, and the direct
`owner/repo` pattern in order; `none` models the `return None` branch. -/
def normalizeCL (s : List Char) : Option (List Char) :=
  match httpsMatchCL (pyStripCL s) with
  | some r => some r
  | Option.none =>
    match sshMatchCL (pyStripCL s) with
    | some r => some r
    | Option.none =>
      if directMatchB (pyStripCL s) then some (pyStripCL s) else none

/-- `GitHubManager._normalize_repository` on strings. -/
def normalizeS (s : String) : Option String :=
  (normalizeCL s.data).map (fun l => String.mk l)

/-- `GitHubManager._parse_repositories`: normalize every entry, discard
the unparseable ones, and collect into a set (modelled as a list without
duplicate insertions; only membership is ever consumed). -/
def parseRepositories (repositories : List String) : List String :=
  repositories.foldl
    (fun parsed repo =>
      match normalizeS repo with
      | some n => if n ∈ parsed then parsed else parsed ++ [n]
      | Option.none => parsed)
    []

/-! ## Manager state and repository access control
(`GitHubManager.__init__` lines 63–64, `is_repository_allowed`,
`get_configured_repositories`) -/

/-- The slice of `GitHubManager`'s state that repository access control
reads: the parsed repository set and the `restrict_to_configured` flag
(both assigned in `__init__`), plus whether `self.client` is set
(`is_authenticated`). -/
structure ManagerModel where
  configured_repositories : List String
  restrict_to_configured : Bool
  authenticated : Bool

/-- The repository-related part of `GitHubManager.__init__`:
`self.configured_repositories = self._parse_repositories(config.get("repositories", []))`
and `self.restrict_to_configured = len(self.configured_repositories) > 0`. -/
def initManager (repositories : List String) (authenticated : Bool) : ManagerModel :=
  { configured_repositories := parseRepositories repositories
    restrict_to_configured := 0 < (parseRepositories repositories).length
    authenticated := authenticated }

/-- `GitHubManager.is_repository_allowed`. -/
def isRepositoryAllowed (m : ManagerModel) (repoName : String) : Bool :=
  if ¬ m.restrict_to_configured then true
  else
    match normalizeS repoName with
    | Option.none => false
    | some normalized => normalized ∈ m.configured_repositories

/-- Lexicographic (code-point) comparison on character lists: the order
Python's `sorted` uses on strings. -/
def clLe : List Char → List Char → Bool
  | [], _ => true
  | _ :: _, [] => false
  | a :: as, b :: bs => if a = b then clLe as bs else decide (a < b)

/-- String comparison for `sorted`. -/
def strLe (a b : String) : Bool := clLe a.data b.data

/-- Insertion step of the sort used to model Python's `sorted`. -/
def sortedInsert (a : String) : List String → List String
  | [] => [a]
  | b :: l => if strLe a b then a :: b :: l else b :: sortedInsert a l

/-- Model of Python's `sorted` on a list of strings. -/
def sortStrings : List String → List String
  | [] => []
  | a :: l => sortedInsert a (sortStrings l)

/-- `GitHubManager.get_configured_repositories`:
`sorted(self.configured_repositories)`. -/
def getConfiguredRepositories (m : ManagerModel) : List String :=
  sortStrings m.configured_repositories

/-! ## Credential resolution
(`GitHubManager.start`, `_get_token_from_sources`, `_get_token_from_cli`,
`_prompt_for_token`) -/

/-- The configuration fields read during credential resolution
(`__init__` lines 56–58). -/
structure AuthConfig where
  token : Option String
  use_cli_auth : Bool
  prompt_if_missing : Bool

/-- The two environment variables consulted by `_get_token_from_sources`;
`none` models an unset variable, `some ""` a set-but-empty one. -/
structure TokenEnv where
  github_token : Option String
  gh_token : Option String

/-- The source a resolved credential came from (spec vocabulary; in the
code each branch logs a distinct message). -/
inductive CredSource
  | explicitSrc
  | environment
  | cli
  | interactive
  | noneSrc
deriving DecidableEq, Repr

/-- Which external effects the resolution performed: environment reads,
the `gh auth token` subprocess, or the interactive prompt. -/
structure ResolveTrace where
  envRead : Bool
  cliInvoked : Bool
  prompted : Bool
deriving DecidableEq, Repr

/-- Python truthiness of an `Optional[str]`: `None` and `""` are falsy. -/
def pyTruthyStr : Option String → Bool
  | Option.none => false
  | some s => s ≠ ""

/-- Python's `a or b` on two `Optional[str]` values: the first truthy
value, else the second value unchanged. -/
def pyOrStr (a b : Option String) : Option String :=
  if pyTruthyStr a then a else b

/-- The token-determination prefix of `GitHubManager.start` (lines
71–93), with the three I/O sources turned into oracles:
`cli` is the return value of `_get_token_from_cli` (`none` for every
failure mode: binary not found, non-zero exit, empty stripped output,
timeout), and `prompt` the raw line read by `_prompt_for_token`
(`none` models `KeyboardInterrupt`/`EOFError`).  Returns the resolved
token with its source and the trace of effects performed. -/
def resolveCredential (cfg : AuthConfig) (env : TokenEnv)
    (cli : Option String) (prompt : Option String) :
    (Option String × CredSource) × ResolveTrace :=
  -- `if not self.token:` — an explicitly configured token short-circuits.
  if pyTruthyStr cfg.token then
    ((cfg.token, CredSource.explicitSrc), ⟨false, false, false⟩)
  else
    -- `_get_token_from_sources`: environment first …
    let envTok := pyOrStr env.github_token env.gh_token
    if pyTruthyStr envTok then
      ((envTok, CredSource.environment), ⟨true, false, false⟩)
    else
      -- … then the GitHub CLI, only if `use_cli_auth`.
      let cliTok := if cfg.use_cli_auth then cli else Option.none
      if pyTruthyStr cliTok then
        ((cliTok, CredSource.cli), ⟨true, cfg.use_cli_auth, false⟩)
      else
        -- back in `start`: still no token.
        if cfg.prompt_if_missing then
          match prompt with
          | some raw =>
            let t := String.mk (pyStripCL raw.data)
            if t ≠ "" then
              ((some t, CredSource.interactive), ⟨true, cfg.use_cli_auth, true⟩)
            else
              ((Option.none, CredSource.noneSrc), ⟨true, cfg.use_cli_auth, true⟩)
          | Option.none =>
            ((Option.none, CredSource.noneSrc), ⟨true, cfg.use_cli_auth, true⟩)
        else
          ((Option.none, CredSource.noneSrc), ⟨true, cfg.use_cli_auth, false⟩)

/-! ## Python values, results and exceptions -/

/-- Shallow model of the Python values that flow through the dispatch
layer (JSON-ish parameter bags). -/
inductive Value where
  | str (s : String)
  | intV (n : Int)
  | boolV (b : Bool)
  | listV (l : List Value)
  | dictV (d : List (String × Value))
  | noneV

/-- A parameter mapping: an association list with Python-dict update
semantics (keys of an actual `dict` are unique; `dictSet` below keeps
that shape). -/
abbrev Dict := List (String × Value)

/-- `d.get(k)` / `k in d`: the first entry with the given key. -/
def dictGet (d : Dict) (k : String) : Option Value :=
  match d with
  | [] => Option.none
  | e :: rest => if e.1 = k then some e.2 else dictGet rest k

/-- `d.get(k, default)`. -/
def dictGetD (d : Dict) (k : String) (dflt : Value) : Value :=
  match dictGet d k with
  | some v => v
  | Option.none => dflt

/-- `d[k] = v`: replace the entry if the key is present, else append. -/
def dictSet (d : Dict) (k : String) (v : Value) : Dict :=
  if (dictGet d k).isSome then
    d.map (fun e => if e.1 = k then (k, v) else e)
  else d ++ [(k, v)]

/-- Python truthiness of a `Value` (`if not operation`, `if repository:`). -/
def pyTruthy : Value → Bool
  | Value.str s => s ≠ ""
  | Value.intV n => n ≠ 0
  | Value.boolV b => b
  | Value.listV l => !l.isEmpty
  | Value.dictV d => !d.isEmpty
  | Value.noneV => false

/-- `isinstance(v, dict)`. -/
def isDictValue : Value → Bool
  | Value.dictV _ => true
  | _ => false

/-- The `ToolResult` envelope (the fallback class in `unified_tool.py` /
`tools/base.py`: `success`, `output or {}`, `error or {}`). -/
structure ToolResult where
  success : Bool
  output : Value
  error : Value

/-- `ToolResult(success=False, error=e)`. -/
def failureResult (error : Value) : ToolResult :=
  { success := false, output := Value.dictV [], error := error }

/-- `ValidationError(msg).to_dict()` (`exceptions.py`). -/
def validationErrorDict (msg : String) : Value :=
  Value.dictV [("message", Value.str msg), ("code", Value.str "VALIDATION_ERROR")]

/-- `ToolExecutionError("github", msg).to_dict()` (`exceptions.py`). -/
def toolExecutionErrorDict (toolName msg : String) : Value :=
  Value.dictV
    [("message", Value.str ("Tool '" ++ toolName ++ "' execution failed: " ++ msg)),
     ("code", Value.str "TOOL_EXECUTION_ERROR")]

/-- `AuthenticationError().to_dict()` (`exceptions.py`, default message). -/
def authenticationErrorDict : Value :=
  Value.dictV
    [("message", Value.str "GitHub authentication failed"),
     ("code", Value.str "AUTHENTICATION_ERROR")]

/-- The Python exceptions that cross the layers modelled here.
`repoNotFound`/`rateLimit` are the module's own `RepositoryNotFoundError`
and `RateLimitError`, `githubExc` is PyGithub's `GithubException`, and
`exc` covers every other `Exception` (carrying its `str(e)`). -/
inductive PyExn where
  | repoNotFound (repo : String)
  | rateLimit (resetTime : String)
  | githubExc (msg : String)
  | exc (tyName msg : String)

/-- `str(e)` for the exceptions above (`GitHubError.__init__` stores the
formatted message, so `str(e)` is exactly it). -/
def pyExnMsg : PyExn → String
  | PyExn.repoNotFound repo => "Repository not found or not accessible: " ++ repo
  | PyExn.rateLimit t => "GitHub API rate limit exceeded. Resets at: " ++ t
  | PyExn.githubExc m => m
  | PyExn.exc _ m => m

/-! ## Username normalization
(`GitHubUnifiedTool._resolve_username_in_parameters`) -/

/-- `STRING_USERNAME_PARAMS` (set literal in the source; order is
irrelevant because per-key updates commute). -/
def STRING_USERNAME_PARAMS : List String := ["assignee", "creator", "mentioned", "author"]

/-- `ARRAY_USERNAME_PARAMS`. -/
def ARRAY_USERNAME_PARAMS : List String :=
  ["assignees", "reviewers", "add_reviewers", "remove_reviewers"]

/-- Python `v == "@me"` for a parameter value: only a string compares
equal to a string. -/
def isAtMe : Value → Bool
  | Value.str s => s = "@me"
  | _ => false

/-- `needs_resolution`: some string parameter equals `"@me"` or some
array parameter is a list containing `"@me"`. -/
def needsResolution (parameters : Dict) : Bool :=
  STRING_USERNAME_PARAMS.any (fun p =>
    match dictGet parameters p with
    | some v => isAtMe v
    | Option.none => false)
  || ARRAY_USERNAME_PARAMS.any (fun p =>
    match dictGet parameters p with
    | some (Value.listV l) => l.any isAtMe
    | _ => false)

/-- One iteration of the string-parameter replacement loop:
`if param in resolved_params and resolved_params[param] == "@me":
resolved_params[param] = authenticated_username`. -/
def resolveStringParam (username : Value) (d : Dict) (p : String) : Dict :=
  match dictGet d p with
  | some v => if isAtMe v then dictSet d p username else d
  | Option.none => d

/-- One iteration of the array-parameter replacement loop: when the
entry is a list containing `"@me"`, rebuild it with the comprehension
`[authenticated_username if username == "@me" else username …]`. -/
def resolveArrayParam (username : Value) (d : Dict) (p : String) : Dict :=
  match dictGet d p with
  | some (Value.listV l) =>
    if l.any isAtMe then
      dictSet d p (Value.listV (l.map (fun v => if isAtMe v then username else v)))
    else d
  | _ => d

/-- The two replacement loops of `_resolve_username_in_parameters`,
run on the copied dict with `username` the value bound to
`authenticated_username` (a string on the success path, `None` — never
actually written, since no placeholder exists then — on the
no-resolution path). -/
def applyResolution (username : Value) (resolved : Dict) : Dict :=
  ARRAY_USERNAME_PARAMS.foldl (resolveArrayParam username)
    (STRING_USERNAME_PARAMS.foldl (resolveStringParam username) resolved)

/-- The error result built when `self.manager.client.get_user()` raises
while resolving `@me` (`unified_tool.py` lines 197–206). -/
def atMeFailure (msg typeName : String) : ToolResult :=
  failureResult (Value.dictV
    [("message", Value.str ("Failed to resolve @me to authenticated user: " ++ msg)),
     ("code", Value.str "AUTHENTICATION_ERROR"),
     ("type", Value.str typeName)])

/-- The authenticated-identity lookup `self.manager.client.get_user().login`:
either the login or the raised exception with its `str` and type name. -/
abbrev UserOracle := Except (String × String) String

/-- `GitHubUnifiedTool._resolve_username_in_parameters`, value-level.
Returns `((resolved_parameters, error_result?), lookups)` where
`lookups` counts how many times the identity oracle was consulted
(`get_user` is called exactly once, and only when `needs_resolution`). -/
def resolveUsernameInParameters (getUser : UserOracle) (parameters : Dict) :
    (Dict × Option ToolResult) × Nat :=
  let resolvedParams := parameters   -- `parameters.copy()` (value-identical)
  if needsResolution parameters then
    match getUser with
    | Except.error (msg, tyName) => ((parameters, some (atMeFailure msg tyName)), 1)
    | Except.ok username =>
      ((applyResolution (Value.str username) resolvedParams, Option.none), 1)
  else
    ((applyResolution Value.noneV resolvedParams, Option.none), 0)

/-! ## The unified dispatcher (`GitHubUnifiedTool.execute`) -/

/-- A per-operation handler (`tool.execute`): external collaborators per
the spec; they may raise. -/
abbrev Handler := Dict → Except PyExn ToolResult

/-- The dispatcher state: the registry `self._tools` and the identity
oracle used for `@me` resolution. -/
structure DispatcherModel where
  tools : List (String × Handler)
  getUser : UserOracle

/-- Handler lookup on `(String × Handler)` association lists. -/
def handlersGet (tools : List (String × Handler)) (k : String) : Option Handler :=
  match tools with
  | [] => Option.none
  | e :: rest => if e.1 = k then some e.2 else handlersGet rest k

/-- `self._tools.get(operation)` with a `Value` key: a string key is
looked up, an unhashable key (list/dict) raises `TypeError`, any other
hashable key is simply absent. -/
def toolsGetValue (tools : List (String × Handler)) (op : Value) :
    Except PyExn (Option Handler) :=
  match op with
  | Value.str s => Except.ok (handlersGet tools s)
  | Value.listV _ => Except.error (PyExn.exc "TypeError" "unhashable type: 'list'")
  | Value.dictV _ => Except.error (PyExn.exc "TypeError" "unhashable type: 'dict'")
  | _ => Except.ok Option.none

/-- `input_data.get(k, default)` where `input_data` may be any value: a
non-mapping raises `AttributeError` (it has no `.get`). -/
def valueGetD (input : Value) (k : String) (dflt : Value) : Except PyExn Value :=
  match input with
  | Value.dictV d => Except.ok (dictGetD d k dflt)
  | _ => Except.error (PyExn.exc "AttributeError" "object has no attribute 'get'")

/-- The `try:`-block body of `GitHubUnifiedTool.execute` (lines 238–269);
every `return` becomes `Except.ok`, every uncaught raise `Except.error`. -/
def executeBody (d : DispatcherModel) (inputData : Value) : Except PyExn ToolResult := do
  let operation ← valueGetD inputData "operation" Value.noneV
  if ¬ pyTruthy operation then
    return failureResult (validationErrorDict "Missing required field: operation")
  let parameters ← valueGetD inputData "parameters" (Value.dictV [])
  match parameters with
  | Value.dictV params =>
    -- resolve @me before dispatching to the individual tool
    match (resolveUsernameInParameters d.getUser params).1 with
    | (_, some err) => return err
    | (resolved, Option.none) =>
      let tool ← toolsGetValue d.tools operation
      match tool with
      | Option.none =>
        let available := String.intercalate ", " (sortStrings (d.tools.map Prod.fst))
        return failureResult (validationErrorDict
          ((match operation with
            | Value.str s => "Unknown operation: " ++ s
            | _ => "Unknown operation: <non-string>") ++
           ". Available operations: " ++ available))
      | some handler =>
        let result ← handler resolved
        return result
  | _ => return failureResult (validationErrorDict "parameters must be an object")

/-- `GitHubUnifiedTool.execute`: the body wrapped in the final
`except Exception` that converts any uncaught exception into a
`ToolExecutionError`-coded failure result. -/
def executeUnified (d : DispatcherModel) (inputData : Value) : ToolResult :=
  match executeBody d inputData with
  | Except.ok r => r
  | Except.error e =>
    failureResult (toolExecutionErrorDict "github" ("Unexpected error: " ++ pyExnMsg e))

/-! ## The list-issues tool (`tools/issues/list.py`, `tools/base.py`) -/

/-- A GitHub issue as consumed by `ListIssuesTool.execute`:
`pull_request` drives the PR-skipping branch; the remaining attribute
reads (`number`, `title`, …, already shaped as the `Value`s the tool puts
in `issue_data`, e.g. `created_at.isoformat() if created_at else None`)
are opaque payloads. -/
structure GhIssue where
  pull_request : Bool
  number : Value
  title : Value
  state : Value
  author : Value
  created_at : Value
  updated_at : Value
  closed_at : Value
  labels : Value
  assignees : Value
  comments : Value
  url : Value

/-- The `issue_data` dict built for one issue (lines 160–173). -/
def issueData (repoName : Value) (i : GhIssue) : Value :=
  Value.dictV
    [("repository", repoName), ("number", i.number), ("title", i.title),
     ("state", i.state), ("author", i.author), ("created_at", i.created_at),
     ("updated_at", i.updated_at), ("closed_at", i.closed_at),
     ("labels", i.labels), ("assignees", i.assignees),
     ("comments", i.comments), ("url", i.url)]

/-- Python's `len(all_issues) >= limit` where `limit` came untyped from
the input: defined for ints (and bools, which are ints), a `TypeError`
otherwise. -/
def pyLenGe (len : Nat) (limit : Value) : Except PyExn Bool :=
  match limit with
  | Value.intV m => Except.ok (decide (m ≤ (len : Int)))
  | Value.boolV b => Except.ok (decide ((if b then (1 : Int) else 0) ≤ (len : Int)))
  | _ => Except.error (PyExn.exc "TypeError"
      "'>=' not supported between instances of 'int' and this type")

/-- The per-issue loop of one repository (lines 152–174): check the cap,
skip pull requests, append `issue_data`. -/
def collectIssues (limit : Value) (repoName : Value) :
    List GhIssue → List Value → Except PyExn (List Value)
  | [], allIssues => Except.ok allIssues
  | i :: rest, allIssues =>
    match pyLenGe allIssues.length limit with
    | Except.error e => Except.error e
    | Except.ok true => Except.ok allIssues
    | Except.ok false =>
      if i.pull_request then collectIssues limit repoName rest allIssues
      else collectIssues limit repoName rest (allIssues ++ [issueData repoName i])

/-- One repository's issue retrieval: `self.manager.get_repository(repo_name)`
followed by `repo.get_issues(state=…, labels=…, assignee=…, creator=…,
mentioned=…, sort=…, direction=…)` and the iteration of the returned
paginated list, abstracted as an oracle that yields the repository's
issue stream or the exception the calls raise (`RepositoryNotFoundError`
and `RateLimitError` from `get_repository`, `GithubException` from the
API).  The filter parameters are folded into the oracle. -/
abbrev FetchOracle := Value → Except PyExn (List GhIssue)

/-- The body of one repository's inner `try`: `get_repository` +
`get_issues` (the oracle), then the per-issue collection loop. -/
def fetchAndCollect (fetch : FetchOracle) (limit : Value) (repoName : Value)
    (allIssues : List Value) : Except PyExn (List Value) :=
  match fetch repoName with
  | Except.error e => Except.error e
  | Except.ok issues => collectIssues limit repoName issues allIssues

/-- The repository loop of `ListIssuesTool.execute` (lines 136–185): per
repository, fetch and collect inside the inner `try`; the inner
`except (RepositoryNotFoundError, GithubException)` records the failure
in `repo_errors` and continues; any other exception propagates.  After a
successful repository, `if len(all_issues) >= limit: break`. -/
def issuesLoop (fetch : FetchOracle) (limit : Value) :
    List Value → List Value → List (Value × String) →
    Except PyExn (List Value × List (Value × String))
  | [], allIssues, repoErrors => Except.ok (allIssues, repoErrors)
  | repoName :: rest, allIssues, repoErrors =>
    match fetchAndCollect fetch limit repoName allIssues with
    | Except.error (PyExn.repoNotFound r) =>
      issuesLoop fetch limit rest allIssues
        (repoErrors ++ [(repoName, pyExnMsg (PyExn.repoNotFound r))])
    | Except.error (PyExn.githubExc m) =>
      issuesLoop fetch limit rest allIssues (repoErrors ++ [(repoName, m)])
    | Except.error e => Except.error e
    | Except.ok allIssues' =>
      match pyLenGe allIssues'.length limit with
      | Except.error e => Except.error e
      | Except.ok true => Except.ok (allIssues', repoErrors)
      | Except.ok false => issuesLoop fetch limit rest allIssues' repoErrors

/-- `GitHubManager.is_repository_allowed` receiving an arbitrary value:
when unrestricted it returns `True` without touching the argument; when
restricted, `_normalize_repository` calls `.strip()`, an
`AttributeError` on a non-string. -/
def isRepositoryAllowedValue (m : ManagerModel) (v : Value) : Except PyExn Bool :=
  match v with
  | Value.str s => Except.ok (isRepositoryAllowed m s)
  | _ =>
    if ¬ m.restrict_to_configured then Except.ok true
    else Except.error (PyExn.exc "AttributeError" "object has no attribute 'strip'")

/-- The f-string interpolation of a repository value into the
permission-denied message; only string values ever reach it (non-strings
raise earlier, inside `is_repository_allowed`). -/
def valueFmt : Value → String
  | Value.str s => s
  | _ => "<value>"

/-- The denial result of `GitHubBaseTool._check_repository_access`
(lines 98–107): names the configured repositories, sorted and
comma-joined. -/
def permissionDeniedResult (m : ManagerModel) (repository : Value) : ToolResult :=
  failureResult (Value.dictV
    [("message", Value.str
       ("Access to repository '" ++ valueFmt repository ++ "' is not allowed. " ++
        "Configured repositories: " ++
        String.intercalate ", " (getConfiguredRepositories m))),
     ("code", Value.str "PERMISSION_DENIED")])

/-- The `MISSING_REPOSITORY` result (lines 121–128). -/
def missingRepositoryResult : ToolResult :=
  failureResult (Value.dictV
    [("message", Value.str
       ("No repository specified and no repositories configured. " ++
        "Either provide a 'repository' parameter or configure repositories in settings.")),
     ("code", Value.str "MISSING_REPOSITORY")])

/-- The success envelope of `ListIssuesTool.execute` (lines 187–196). -/
def listIssuesSuccess (reposQueried : List Value) (stateV : Value)
    (allIssues : List Value) (repoErrors : List (Value × String)) : ToolResult :=
  { success := true
    output := Value.dictV
      [("repositories_queried", Value.listV reposQueried),
       ("state", stateV),
       ("count", Value.intV allIssues.length),
       ("issues", Value.listV allIssues),
       ("errors",
        if repoErrors.isEmpty then Value.noneV
        else Value.listV (repoErrors.map (fun p =>
          Value.dictV [("repository", p.1), ("error", Value.str p.2)])))]
    error := Value.dictV [] }

/-- Mapping of the outer `except` clauses of `ListIssuesTool.execute`
(lines 198–222) over the exception that escaped the repository loop. -/
def listIssuesOuterHandler (e : PyExn) : ToolResult :=
  match e with
  | PyExn.repoNotFound r =>
    failureResult (Value.dictV
      [("message", Value.str (pyExnMsg (PyExn.repoNotFound r))),
       ("code", Value.str "REPOSITORY_NOT_FOUND")])
  | PyExn.rateLimit t =>
    failureResult (Value.dictV
      [("message", Value.str (pyExnMsg (PyExn.rateLimit t))),
       ("code", Value.str "RATE_LIMIT_EXCEEDED")])
  | PyExn.githubExc m =>
    failureResult (Value.dictV
      [("message", Value.str ("GitHub API error: " ++ m)),
       ("code", Value.str "GITHUB_API_ERROR")])
  | PyExn.exc tyName m =>
    failureResult (Value.dictV
      [("message", Value.str ("Unexpected error: " ++ m)),
       ("code", Value.str "UNEXPECTED_ERROR"),
       ("type", Value.str tyName)])

/-- The outer `try` of `ListIssuesTool.execute` (lines 131–222): run the
repository loop over `repositories_to_query`; on success build the
success envelope, and map any escaped exception through the outer
`except` clauses. -/
def runIssuesQuery (fetch : FetchOracle) (inputData : Dict)
    (reposToQuery : List Value) : ToolResult :=
  match issuesLoop fetch (dictGetD inputData "limit" (Value.intV 30))
      reposToQuery [] [] with
  | Except.ok (allIssues, repoErrors) =>
    listIssuesSuccess reposToQuery (dictGetD inputData "state" (Value.str "open"))
      allIssues repoErrors
  | Except.error e => listIssuesOuterHandler e

/-- `ListIssuesTool.execute`.  The `Except` in the result type carries
exceptions raised before the `try` at line 131 (the repository access
check on a truthy non-string), which the unified dispatcher would
convert; everything inside the `try` is handled locally. -/
def listIssuesExecute (m : ManagerModel) (fetch : FetchOracle)
    (inputData : Dict) : Except PyExn ToolResult :=
  -- `self._check_authentication()`
  if ¬ m.authenticated then Except.ok (failureResult authenticationErrorDict)
  else
    -- determine `repositories_to_query` (lines 111–129)
    if pyTruthy (dictGetD inputData "repository" Value.noneV) then
      match isRepositoryAllowedValue m (dictGetD inputData "repository" Value.noneV) with
      | Except.error e => Except.error e
      | Except.ok false =>
        Except.ok (permissionDeniedResult m (dictGetD inputData "repository" Value.noneV))
      | Except.ok true =>
        Except.ok (runIssuesQuery fetch inputData
          [dictGetD inputData "repository" Value.noneV])
    else
      if (getConfiguredRepositories m).isEmpty then
        Except.ok missingRepositoryResult
      else
        Except.ok (runIssuesQuery fetch inputData
          ((getConfiguredRepositories m).map Value.str))

/-! ## Store-level view of `_resolve_username_in_parameters`

To state the frame/aliasing property (the caller's mapping and its list
values are never mutated; the function returns a fresh shallow copy and
fresh lists), the same source lines are embedded a second time over an
explicit object store: dicts and lists live at addresses, `parameters.copy()`
allocates, `resolved_params[param] = …` writes to the copy's address, and
the list comprehension allocates a fresh list. -/

/-- A Python value at store level: immutables inline, containers by
reference. -/
inductive PyVal where
  | str (s : String)
  | intV (n : Int)
  | boolV (b : Bool)
  | ref (a : Nat)
  | noneV

/-- A heap object: a dict or a list. -/
inductive PyObj where
  | dictO (entries : List (String × PyVal))
  | listO (elems : List PyVal)

/-- The object store; an address is an index, allocation appends. -/
abbrev Store := List PyObj

/-- Entry lookup in a store-level dict. -/
def entriesGet (es : List (String × PyVal)) (k : String) : Option PyVal :=
  match es with
  | [] => Option.none
  | e :: rest => if e.1 = k then some e.2 else entriesGet rest k

/-- Entry update in a store-level dict (replace if present, else append). -/
def entriesSet (es : List (String × PyVal)) (k : String) (v : PyVal) :
    List (String × PyVal) :=
  if (entriesGet es k).isSome then
    es.map (fun e => if e.1 = k then (k, v) else e)
  else es ++ [(k, v)]

/-- `v == "@me"` at store level (a reference never equals a string). -/
def isAtMeP : PyVal → Bool
  | PyVal.str s => s = "@me"
  | _ => false

/-- `needs_resolution` read off the store: a string parameter equal to
`"@me"`, or an array parameter referencing a list containing `"@me"`. -/
def needsResolutionStore (h : Store) (es : List (String × PyVal)) : Bool :=
  STRING_USERNAME_PARAMS.any (fun p =>
    match entriesGet es p with
    | some v => isAtMeP v
    | Option.none => false)
  || ARRAY_USERNAME_PARAMS.any (fun p =>
    match entriesGet es p with
    | some (PyVal.ref a) =>
      match h[a]? with
      | some (PyObj.listO l) => l.any isAtMeP
      | _ => false
    | _ => false)

/-- The string-parameter replacement loop, writing into the dict object
at address `rp` (the fresh copy). -/
def stringLoopStore (username : String) (h : Store) (rp : Nat) : Store :=
  STRING_USERNAME_PARAMS.foldl
    (fun h p =>
      match h[rp]? with
      | some (PyObj.dictO es) =>
        match entriesGet es p with
        | some v =>
          if isAtMeP v then h.set rp (PyObj.dictO (entriesSet es p (PyVal.str username)))
          else h
        | Option.none => h
      | _ => h)
    h

/-- The array-parameter replacement loop: when the entry references a
list containing `"@me"`, allocate the fresh comprehension result and
repoint the copy's entry at it. -/
def arrayLoopStore (username : String) (h : Store) (rp : Nat) : Store :=
  ARRAY_USERNAME_PARAMS.foldl
    (fun h p =>
      match h[rp]? with
      | some (PyObj.dictO es) =>
        match entriesGet es p with
        | some (PyVal.ref a) =>
          match h[a]? with
          | some (PyObj.listO l) =>
            if l.any isAtMeP then
              let resolvedList :=
                l.map (fun v => if isAtMeP v then PyVal.str username else v)
              (h ++ [PyObj.listO resolvedList]).set rp
                (PyObj.dictO (entriesSet es p (PyVal.ref h.length)))
            else h
          | _ => h
        | _ => h
      | _ => h)
    h

/-- `_resolve_username_in_parameters` at store level.  `p` is the address
of the caller's `parameters` dict; the result is the new store, the
address of the returned mapping, and the optional error result.  (If `p`
does not address a dict the call is a no-op; the Python signature
guarantees a dict.) -/
def resolveUsernameStore (getUser : UserOracle) (h : Store) (p : Nat) :
    Store × Nat × Option ToolResult :=
  match h[p]? with
  | some (PyObj.dictO entries) =>
    -- `resolved_params = parameters.copy()` — a fresh shallow copy
    let h1 := h ++ [PyObj.dictO entries]
    let rp := h.length
    if needsResolutionStore h entries then
      match getUser with
      | Except.error (msg, tyName) => (h1, p, some (atMeFailure msg tyName))
      | Except.ok username =>
        let h2 := stringLoopStore username h1 rp
        let h3 := arrayLoopStore username h2 rp
        (h3, rp, Option.none)
    else (h1, rp, Option.none)
  | _ => (h, p, Option.none)

/-! ## Theorems -/

/-! ### Helper lemmas about the normalization functions -/

theorem takeWhile_append_cons {α : Type} (p : α → Bool) (l : List α) (a : α)
    (t : List α) (hl : ∀ x ∈ l, p x = true) (ha : p a = false) :
    (l ++ a :: t).takeWhile p = l := by
  induction l with
  | nil => simp [List.takeWhile_cons, ha]
  | cons b l ih =>
    simp only [List.cons_append, List.takeWhile_cons, hl b (by simp), if_true]
    rw [ih (fun x hx => hl x (by simp [hx]))]

theorem dropWhile_append_cons {α : Type} (p : α → Bool) (l : List α) (a : α)
    (t : List α) (hl : ∀ x ∈ l, p x = true) (ha : p a = false) :
    (l ++ a :: t).dropWhile p = a :: t := by
  induction l with
  | nil => simp [List.dropWhile_cons, ha]
  | cons b l ih =>
    simp only [List.cons_append, List.dropWhile_cons, hl b (by simp), if_true]
    exact ih (fun x hx => hl x (by simp [hx]))

theorem pyStripCL_eq_self {l : List Char}
    (h1 : ∀ a, l.head? = some a → isPyWs a = false)
    (h2 : ∀ a, l.getLast? = some a → isPyWs a = false) :
    pyStripCL l = l := by
  have hd : l.dropWhile isPyWs = l := by
    cases l with
    | nil => rfl
    | cons a t => simp [List.dropWhile_cons, h1 a rfl]
  have hr : l.reverse.dropWhile isPyWs = l.reverse := by
    cases hrev : l.reverse with
    | nil => rfl
    | cons a t =>
      have : l.getLast? = some a := by
        rw [← List.head?_reverse, hrev]; rfl
      simp [List.dropWhile_cons, h2 a this]
  unfold pyStripCL
  rw [hd, hr, List.reverse_reverse]

theorem stripDotGit_append_git (r : List Char) (hr : r ≠ []) :
    stripDotGit (r ++ ['.', 'g', 'i', 't']) = r := by
  have hlen : 0 < r.length := List.length_pos.mpr hr
  unfold stripDotGit
  rw [if_pos]
  · rw [List.reverse_append]
    simp
  · refine ⟨by simp; omega, ?_⟩
    rw [List.reverse_append]
    simp

theorem stripDotGit_of_no_git (c : List Char)
    (h : c.reverse.take 4 ≠ ['t', 'i', 'g', '.']) :
    stripDotGit c = c := by
  unfold stripDotGit
  rw [if_neg]
  intro hc
  exact h hc.2

theorem stripDotGit_ne_nil (c : List Char) (h : c ≠ []) : stripDotGit c ≠ [] := by
  unfold stripDotGit
  split
  · next hcond =>
    apply List.ne_nil_of_length_pos
    simp
    omega
  · exact h

theorem mem_stripDotGit {c : List Char} {x : Char} (hx : x ∈ stripDotGit c) : x ∈ c := by
  unfold stripDotGit at hx
  split at hx
  · rw [List.mem_reverse] at hx
    exact List.mem_reverse.mp (List.mem_of_mem_drop hx)
  · exact hx

theorem ownerRepoTail_shape (b : Bool) (owner c : List Char)
    (ho : owner ≠ []) (hoc : ∀ x ∈ owner, x ≠ '/')
    (hc : c ≠ []) (hcc : ∀ x ∈ c, x ≠ '/') :
    ownerRepoTail b (owner ++ '/' :: c) = some (owner ++ '/' :: stripDotGit c) := by
  unfold ownerRepoTail
  rw [takeWhile_append_cons _ _ _ _ (fun x hx => by simpa using hoc x hx) (by simp),
      dropWhile_append_cons _ _ _ _ (fun x hx => by simpa using hoc x hx) (by simp)]
  have hct : c.takeWhile (fun x => decide (x ≠ '/')) = c :=
    List.takeWhile_eq_self_iff.mpr (fun x hx => by simpa using hcc x hx)
  have hcd : c.dropWhile (fun x => decide (x ≠ '/')) = [] :=
    List.dropWhile_eq_nil_iff.mpr (fun x hx => by simpa using hcc x hx)
  simp only [hct, hcd, ho, hc, if_neg, if_pos]
  simp [ho, hc]

theorem ownerRepoTail_some {b : Bool} {t r : List Char}
    (h : ownerRepoTail b t = some r) :
    ∃ owner c, r = owner ++ '/' :: stripDotGit c ∧ owner ≠ [] ∧
      (∀ x ∈ owner, x ≠ '/') ∧ c ≠ [] ∧ (∀ x ∈ c, x ≠ '/') := by
  unfold ownerRepoTail at h
  split at h
  · next rest heq =>
    split at h
    · exact absurd h (by simp)
    · next howner =>
      split at h
      · exact absurd h (by simp)
      · next hc =>
        split at h
        · refine ⟨t.takeWhile (fun c => c ≠ '/'), rest.takeWhile (fun c => c ≠ '/'),
            by simpa using h.symm, howner, ?_, hc, ?_⟩
          · intro x hx
            simpa using List.mem_takeWhile_imp hx
          · intro x hx
            simpa using List.mem_takeWhile_imp hx
        · exact absurd h (by simp)
  · exact absurd h (by simp)

theorem httpsHostPart_some {t r : List Char}
    (h : httpsMatchCL.httpsHostPart t = some r) :
    ∃ owner c, r = owner ++ '/' :: stripDotGit c ∧ owner ≠ [] ∧
      (∀ x ∈ owner, x ≠ '/') ∧ c ≠ [] ∧ (∀ x ∈ c, x ≠ '/') := by
  unfold httpsMatchCL.httpsHostPart at h
  split at h
  · split at h
    · exact absurd h (by simp)
    · exact ownerRepoTail_some h
  · exact absurd h (by simp)

theorem httpsMatchCL_some {l r : List Char} (h : httpsMatchCL l = some r) :
    ∃ owner c, r = owner ++ '/' :: stripDotGit c ∧ owner ≠ [] ∧
      (∀ x ∈ owner, x ≠ '/') ∧ c ≠ [] ∧ (∀ x ∈ c, x ≠ '/') := by
  unfold httpsMatchCL at h
  split at h
  · exact httpsHostPart_some h
  · exact httpsHostPart_some h
  · exact absurd h (by simp)

theorem sshMatchCL_some {l r : List Char} (h : sshMatchCL l = some r) :
    ∃ owner c, r = owner ++ '/' :: stripDotGit c ∧ owner ≠ [] ∧
      (∀ x ∈ owner, x ≠ '/') ∧ c ≠ [] ∧ (∀ x ∈ c, x ≠ '/') := by
  unfold sshMatchCL at h
  split at h
  · split at h
    · split at h
      · exact absurd h (by simp)
      · exact ownerRepoTail_some h
    · exact absurd h (by simp)
  · exact absurd h (by simp)

theorem directMatchB_of_shape (owner b : List Char) (ho : owner ≠ [])
    (hoc : ∀ x ∈ owner, x ≠ '/') (hb : b ≠ []) (hbc : ∀ x ∈ b, x ≠ '/') :
    directMatchB (owner ++ '/' :: b) = true := by
  unfold directMatchB
  rw [takeWhile_append_cons _ _ _ _ (fun x hx => by simpa using hoc x hx) (by simp),
      dropWhile_append_cons _ _ _ _ (fun x hx => by simpa using hoc x hx) (by simp)]
  simp only [Bool.and_eq_true, List.all_eq_true]
  refine ⟨⟨by simpa using ho, by simpa using hb⟩, fun x hx => by simpa using hbc x hx⟩

theorem directMatchB_normalizeCL {s r : List Char} (h : normalizeCL s = some r) :
    directMatchB r = true := by
  unfold normalizeCL at h
  cases hh : httpsMatchCL (pyStripCL s) with
  | some x =>
    rw [hh] at h
    obtain ⟨owner, c, hx, ho, hoc, hc, hcc⟩ := httpsMatchCL_some hh
    cases h
    rw [hx]
    exact directMatchB_of_shape _ _ ho hoc (stripDotGit_ne_nil c hc)
      (fun y hy => hcc y (mem_stripDotGit hy))
  | none =>
    rw [hh] at h
    cases hs : sshMatchCL (pyStripCL s) with
    | some x =>
      rw [hs] at h
      obtain ⟨owner, c, hx, ho, hoc, hc, hcc⟩ := sshMatchCL_some hs
      cases h
      rw [hx]
      exact directMatchB_of_shape _ _ ho hoc (stripDotGit_ne_nil c hc)
        (fun y hy => hcc y (mem_stripDotGit hy))
    | none =>
      rw [hs] at h
      by_cases hd : directMatchB (pyStripCL s) = true
      · rw [if_pos hd] at h
        cases h
        exact hd
      · rw [if_neg hd] at h
        exact absurd h (by simp)

theorem count_slash_of_directMatchB {l : List Char} (h : directMatchB l = true) :
    l.count '/' = 1 := by
  unfold directMatchB at h
  split at h
  · next b heq =>
    simp only [Bool.and_eq_true, List.all_eq_true] at h
    have hl : l = l.takeWhile (fun c => c ≠ '/') ++ '/' :: b := by
      conv_lhs => rw [← List.takeWhile_append_dropWhile (p := fun c => c ≠ '/') (l := l)]
      rw [heq]
    rw [hl]
    rw [List.count_append]
    have h1 : (l.takeWhile (fun c => c ≠ '/')).count '/' = 0 := by
      rw [List.count_eq_zero]
      intro hmem
      have := List.mem_takeWhile_imp hmem
      simp at this
    have h2 : b.count '/' = 0 := by
      rw [List.count_eq_zero]
      intro hmem
      have := h.2 '/' hmem
      simp at this
    rw [h1]
    simp [h2, List.count_cons]
  · exact absurd h (by simp)

theorem httpsMatchCL_none_of_directMatchB {l : List Char}
    (hd : directMatchB l = true) : httpsMatchCL l = Option.none := by
  cases hh : httpsMatchCL l with
  | none => rfl
  | some r =>
    exfalso
    have hcount := count_slash_of_directMatchB hd
    unfold httpsMatchCL at hh
    split at hh
    · next rest =>
      simp [List.count_cons] at hcount
    · next rest =>
      simp [List.count_cons] at hcount
    · exact absurd hh (by simp)

theorem sshMatchCL_shape (host mid : List Char) (hh : host ≠ [])
    (hhc : ∀ x ∈ host, x ≠ ':') :
    sshMatchCL ('g' :: 'i' :: 't' :: '@' :: (host ++ ':' :: mid)) =
      ownerRepoTail false mid := by
  simp only [sshMatchCL]
  rw [dropWhile_append_cons _ _ _ _ (fun x hx => by simpa using hhc x hx) (by simp),
      takeWhile_append_cons _ _ _ _ (fun x hx => by simpa using hhc x hx) (by simp)]
  simp [hh]

theorem pyStripCL_git_tail (mid : List Char) :
    pyStripCL ('g' :: (mid ++ ['.', 'g', 'i', 't'])) =
      'g' :: (mid ++ ['.', 'g', 'i', 't']) := by
  apply pyStripCL_eq_self
  · intro a ha
    simp only [List.head?_cons, Option.some.injEq] at ha
    subst ha
    decide
  · intro a ha
    rw [List.getLast?_cons, List.getLast?_append] at ha
    simp at ha
    subst ha
    decide

theorem pyStripCL_cons_of_getLast (c : Char) (mid tail : List Char)
    (hc : isPyWs c = false) (htail : tail ≠ [])
    (hlast : ∀ a, tail.getLast? = some a → isPyWs a = false) :
    pyStripCL (c :: (mid ++ tail)) = c :: (mid ++ tail) := by
  apply pyStripCL_eq_self
  · intro a ha
    simp only [List.head?_cons, Option.some.injEq] at ha
    subst ha
    exact hc
  · intro a ha
    obtain ⟨z, hz⟩ := Option.isSome_iff_exists.mp (List.getLast?_isSome.mpr htail)
    rw [List.getLast?_cons, List.getLast?_append, hz] at ha
    simp only [Option.or_some, Option.some.injEq] at ha
    subst ha
    exact hlast z hz

/-- C1: for every access configuration and repository identifier: an
empty built set means `is_repository_allowed` returns true
unconditionally; with a non-empty set, an identifier that fails to
normalize is rejected (fail closed), and otherwise the answer is
set-membership of the normalized identifier. -/
theorem c1_is_repository_allowed_semantics (raw : List String) (auth : Bool)
    (repoId : String) :
    ((initManager raw auth).configured_repositories = [] →
      isRepositoryAllowed (initManager raw auth) repoId = true) ∧
    ((initManager raw auth).configured_repositories ≠ [] →
      normalizeS repoId = Option.none →
      isRepositoryAllowed (initManager raw auth) repoId = false) ∧
    ((initManager raw auth).configured_repositories ≠ [] →
      ∀ n, normalizeS repoId = some n →
      isRepositoryAllowed (initManager raw auth) repoId =
        decide (n ∈ (initManager raw auth).configured_repositories)) := by
  refine ⟨fun hempty => ?_, fun hne hnorm => ?_, fun hne n hnorm => ?_⟩
  · simp only [initManager] at hempty ⊢
    simp [isRepositoryAllowed, hempty]
  · have hlen : 0 < (parseRepositories raw).length := by
      simp only [initManager] at hne
      cases h : parseRepositories raw with
      | nil => exact absurd h hne
      | cons a l => simp [h]
    simp [isRepositoryAllowed, initManager, hlen, hnorm]
  · have hlen : 0 < (parseRepositories raw).length := by
      simp only [initManager] at hne
      cases h : parseRepositories raw with
      | nil => exact absurd h hne
      | cons a l => simp [h]
    simp [isRepositoryAllowed, initManager, hlen, hnorm]

/-- Witness for C1 at a concrete configuration and identifier. -/
theorem c1_is_repository_allowed_semantics_witness :
    isRepositoryAllowed (initManager ["https://github.com/a/b"] true)
      "git@github.com:a/b.git" = true :=
  ((c1_is_repository_allowed_semantics ["https://github.com/a/b"] true
      "git@github.com:a/b.git").2.2 (by decide) "a/b" (by decide)).trans (by decide)

/-- C2: a non-empty explicitly configured token is returned tagged
`explicit`, and no environment read, CLI subprocess or interactive
prompt happens, whatever the environment, CLI and prompt oracles and the
`use_cli_auth` / `prompt_if_missing` flags hold. -/
theorem c2_explicit_token_short_circuits (cfg : AuthConfig) (env : TokenEnv)
    (cli prompt : Option String) (t : String)
    (htok : cfg.token = some t) (hne : t ≠ "") :
    resolveCredential cfg env cli prompt =
      ((some t, CredSource.explicitSrc), ⟨false, false, false⟩) := by
  simp [resolveCredential, pyTruthyStr, htok, hne]

/-- Witness for C2: adversarial environment, CLI and prompt values are
all ignored. -/
theorem c2_explicit_token_short_circuits_witness :
    resolveCredential ⟨some "cfg-token", true, true⟩
      ⟨some "env-token", some "gh-token"⟩ (some "cli-token") (some "typed") =
      ((some "cfg-token", CredSource.explicitSrc), ⟨false, false, false⟩) :=
  c2_explicit_token_short_circuits _ _ _ _ "cfg-token" rfl (by decide)

/-- C3: `GitHubUnifiedTool.execute` always returns a `ToolResult` (it is
a total function into `ToolResult` in this embedding): an exception
escaping the body is converted into a `TOOL_EXECUTION_ERROR` failure
result, a normally returned result passes through unchanged, and a
non-mapping `parameters` value yields a validation failure rather than
an exception. -/
theorem c3_execute_never_raises (d : DispatcherModel) (inputData : Value) :
    (∀ e, executeBody d inputData = Except.error e →
      executeUnified d inputData =
        failureResult (toolExecutionErrorDict "github"
          ("Unexpected error: " ++ pyExnMsg e))) ∧
    (∀ r, executeBody d inputData = Except.ok r → executeUnified d inputData = r) ∧
    (∀ ps v w, inputData = Value.dictV ps →
      dictGet ps "operation" = some v → pyTruthy v = true →
      dictGet ps "parameters" = some w → isDictValue w = false →
      executeUnified d inputData =
        failureResult (validationErrorDict "parameters must be an object")) := by
  refine ⟨fun e he => ?_, fun r hr => ?_, fun ps v w hin hop htr hpar hnd => ?_⟩
  · simp [executeUnified, he]
  · simp [executeUnified, hr]
  · subst hin
    have hbody : executeBody d (Value.dictV ps) =
        Except.ok (failureResult (validationErrorDict "parameters must be an object")) := by
      simp only [executeBody, valueGetD, dictGetD, hop, htr, hpar]
      cases w <;>
        simp_all [isDictValue, Bind.bind, Except.bind, pure, Except.pure]
    simp [executeUnified, hbody]

/-- Witness for C3: a registered handler that raises is converted into a
`TOOL_EXECUTION_ERROR` failure result. -/
theorem c3_execute_never_raises_witness :
    executeUnified
      ⟨[("boom", fun _ => Except.error (PyExn.exc "RuntimeError" "boom"))],
        Except.ok "octocat"⟩
      (Value.dictV [("operation", Value.str "boom"), ("parameters", Value.dictV [])]) =
      failureResult (toolExecutionErrorDict "github" "Unexpected error: boom") :=
  (c3_execute_never_raises _ _).1 (PyExn.exc "RuntimeError" "boom") rfl

/-- C7 (counterexample): the claim says any user segment works in the
SSH shape; but for user `alice` the SSH pattern does not fire and the
identifier is returned verbatim by the direct pattern, not as
`owner/repo`. -/
theorem c7_ssh_any_user_counterexample :
    normalizeS "alice@host:owner/repo" ≠ some "owner/repo" ∧
    normalizeS "alice@host:owner/repo" = some "alice@host:owner/repo" ∧
    normalizeS "alice@host:owner/repo.git" = some "alice@host:owner/repo.git" := by
  refine ⟨by decide, rfl, rfl⟩

/-- C7 (amended): the SSH pattern fires only for the literal user
segment `git`: for every host without `:` and owner/repo without `/`,
`git@host:owner/repo.git` normalizes to `owner/repo`, and so does
`git@host:owner/repo` when `repo` does not itself end in `.git` (and
does not end in whitespace, which `strip` would eat).  A different user
segment falls through to the direct pattern (see the counterexample). -/
theorem c7_ssh_git_user_normalizes (host owner repo : String)
    (hh : host.data ≠ []) (hhc : ∀ c ∈ host.data, c ≠ ':')
    (ho : owner.data ≠ []) (hoc : ∀ c ∈ owner.data, c ≠ '/')
    (hr : repo.data ≠ []) (hrc : ∀ c ∈ repo.data, c ≠ '/') :
    normalizeS ("git@" ++ host ++ ":" ++ owner ++ "/" ++ repo ++ ".git") =
      some (owner ++ "/" ++ repo) ∧
    (repo.data.reverse.take 4 ≠ ['t', 'i', 'g', '.'] →
     (∀ a, repo.data.getLast? = some a → isPyWs a = false) →
     normalizeS ("git@" ++ host ++ ":" ++ owner ++ "/" ++ repo) =
       some (owner ++ "/" ++ repo)) := by
  have hresult : String.mk (owner.data ++ '/' :: repo.data) = owner ++ "/" ++ repo := by
    have hd : (owner ++ "/" ++ repo).data = owner.data ++ '/' :: repo.data := by
      simp [String.data_append]
    rw [← hd]
  constructor
  · have hdata : ("git@" ++ host ++ ":" ++ owner ++ "/" ++ repo ++ ".git").data =
        'g' :: 'i' :: 't' :: '@' ::
          (host.data ++ ':' :: (owner.data ++ '/' :: (repo.data ++ ['.', 'g', 'i', 't']))) := by
      simp [String.data_append]
    have hstrip : pyStripCL (('g' :: 'i' :: 't' :: '@' ::
        (host.data ++ ':' :: (owner.data ++ '/' :: (repo.data ++ ['.', 'g', 'i', 't']))))) =
        'g' :: 'i' :: 't' :: '@' ::
          (host.data ++ ':' :: (owner.data ++ '/' :: (repo.data ++ ['.', 'g', 'i', 't']))) := by
      apply pyStripCL_eq_self
      · intro a ha
        simp only [List.head?_cons, Option.some.injEq] at ha
        subst ha
        decide
      · intro a ha
        simp only [List.getLast?_cons, List.getLast?_append] at ha
        simp at ha
        subst ha
        decide
    unfold normalizeS normalizeCL
    rw [hdata, hstrip]
    have hhttps : httpsMatchCL ('g' :: 'i' :: 't' :: '@' ::
        (host.data ++ ':' :: (owner.data ++ '/' :: (repo.data ++ ['.', 'g', 'i', 't'])))) =
        Option.none := rfl
    rw [hhttps]
    have hssh := sshMatchCL_shape host.data
      (owner.data ++ '/' :: (repo.data ++ ['.', 'g', 'i', 't'])) hh hhc
    rw [hssh, ownerRepoTail_shape false owner.data (repo.data ++ ['.', 'g', 'i', 't'])
      ho hoc (by simp) (by
        intro x hx
        rcases List.mem_append.mp hx with hx | hx
        · exact hrc x hx
        · simp at hx
          rcases hx with rfl | rfl | rfl | rfl <;> decide),
      stripDotGit_append_git repo.data hr]
    simp [hresult]
  · intro hnogit hnows
    have hdata : ("git@" ++ host ++ ":" ++ owner ++ "/" ++ repo).data =
        'g' :: 'i' :: 't' :: '@' ::
          (host.data ++ ':' :: (owner.data ++ '/' :: repo.data)) := by
      simp [String.data_append]
    have hstrip : pyStripCL ('g' :: 'i' :: 't' :: '@' ::
        (host.data ++ ':' :: (owner.data ++ '/' :: repo.data))) =
        'g' :: 'i' :: 't' :: '@' ::
          (host.data ++ ':' :: (owner.data ++ '/' :: repo.data)) := by
      apply pyStripCL_eq_self
      · intro a ha
        simp only [List.head?_cons, Option.some.injEq] at ha
        subst ha
        decide
      · intro a ha
        obtain ⟨z, hz⟩ := Option.isSome_iff_exists.mp (List.getLast?_isSome.mpr hr)
        simp only [List.getLast?_cons, List.getLast?_append, hz] at ha
        simp at ha
        subst ha
        exact hnows z hz
    unfold normalizeS normalizeCL
    rw [hdata, hstrip]
    have hhttps : httpsMatchCL ('g' :: 'i' :: 't' :: '@' ::
        (host.data ++ ':' :: (owner.data ++ '/' :: repo.data))) = Option.none := rfl
    rw [hhttps]
    have hssh := sshMatchCL_shape host.data (owner.data ++ '/' :: repo.data) hh hhc
    rw [hssh, ownerRepoTail_shape false owner.data repo.data ho hoc hr hrc,
      stripDotGit_of_no_git repo.data hnogit]
    simp [hresult]

/-- Witness for C7 at a concrete host/owner/repo. -/
theorem c7_ssh_git_user_normalizes_witness :
    normalizeS "git@github.com:octo/repo.git" = some "octo/repo" ∧
    normalizeS "git@github.com:octo/repo" = some "octo/repo" := by
  have h := c7_ssh_git_user_normalizes "github.com" "octo" "repo"
    (by decide) (by decide) (by decide) (by decide) (by decide) (by decide)
  exact ⟨h.1, h.2 (by decide) (by decide)⟩

theorem directMatchB_normalizeS {s n : String} (h : normalizeS s = some n) :
    directMatchB n.data = true := by
  unfold normalizeS at h
  cases hcl : normalizeCL s.data with
  | none => rw [hcl] at h; exact Option.noConfusion h
  | some l =>
    rw [hcl] at h
    simp only [Option.map_some', Option.some.injEq] at h
    rw [← h]
    exact directMatchB_normalizeCL hcl

theorem parseRepositories_fold_invariant (raw : List String) (acc : List String)
    (hacc : ∀ m ∈ acc, directMatchB m.data = true) :
    ∀ m ∈ raw.foldl
      (fun parsed repo =>
        match normalizeS repo with
        | some n => if n ∈ parsed then parsed else parsed ++ [n]
        | Option.none => parsed) acc,
      directMatchB m.data = true := by
  induction raw generalizing acc with
  | nil => simpa using hacc
  | cons repo rest ih =>
    intro m hm
    rw [List.foldl_cons] at hm
    refine ih _ ?_ m hm
    intro x hx
    cases hn : normalizeS repo with
    | none =>
      rw [hn] at hx
      simp only [] at hx
      exact hacc x hx
    | some n =>
      rw [hn] at hx
      simp only [] at hx
      by_cases hmem : n ∈ acc
      · rw [if_pos hmem] at hx
        exact hacc x hx
      · rw [if_neg hmem] at hx
        rcases List.mem_append.mp hx with hx | hx
        · exact hacc x hx
        · simp only [List.mem_singleton] at hx
          subst hx
          exact directMatchB_normalizeS hn

/-- C8 (counterexample): the built set can contain members with a
trailing `.git` suffix: a bare `owner/repo.git` entry is returned
verbatim by the direct pattern, and even the HTTPS URL pattern strips
exactly one trailing `.git` (the lazy group), so
`https://h/a/b.git.git` contributes the member `a/b.git`. -/
theorem c8_trailing_git_counterexample :
    "a/b.git" ∈ parseRepositories ["a/b.git"] ∧
    "a/b.git" ∈ parseRepositories ["https://h/a/b.git.git"] ∧
    ("a/b.git" : String).data.reverse.take 4 = ['t', 'i', 'g', '.'] := by
  decide

/-- C8 (amended): every member of the set built by
`_parse_repositories` matches `^[^/]+/[^/]+$` (exactly one slash, both
segments non-empty, no embedded slashes); the no-trailing-`.git` part of
the claim does not hold — a member may end in `.git`, whether it came
from a verbatim direct entry or from a URL pattern, which strips only
one `.git` (see the counterexample). -/
theorem c8_members_match_direct_pattern (raw : List String) :
    ∀ m ∈ parseRepositories raw, directMatchB m.data = true := by
  unfold parseRepositories
  exact parseRepositories_fold_invariant raw [] (by simp)

/-- Witness for C8 at a concrete configuration. -/
theorem c8_members_match_direct_pattern_witness :
    directMatchB ("a/b" : String).data = true :=
  c8_members_match_direct_pattern ["https://github.com/a/b.git"] "a/b" (by decide)

/-- C9 (counterexample): normalization is not idempotent — an HTTPS URL
whose path component looks like an SSH remote normalizes to a string
that normalizes again to something shorter. -/
theorem c9_not_idempotent_counterexample :
    normalizeS "https://x/git@host:a/b" = some "git@host:a/b" ∧
    normalizeS "git@host:a/b" = some "a/b" ∧
    ("a/b" : String) ≠ "git@host:a/b" :=
  ⟨rfl, rfl, by decide⟩

/-- C9 (amended): the four format-equivalence evaluations hold, and
normalization is idempotent on every result that is already
whitespace-trimmed and does not itself match the SSH pattern (the
counterexample shows both provisos are needed in general). -/
theorem c9_format_equivalence_and_idempotence :
    (normalizeS "https://github.com/a/b" = some "a/b" ∧
     normalizeS "https://github.com/a/b.git" = some "a/b" ∧
     normalizeS "git@github.com:a/b.git" = some "a/b" ∧
     normalizeS "a/b" = some "a/b") ∧
    (∀ s r : String, normalizeS s = some r → sshMatchCL r.data = Option.none →
      pyStripCL r.data = r.data → normalizeS r = some r) := by
  refine ⟨⟨rfl, rfl, rfl, rfl⟩, fun s r h hssh hstrip => ?_⟩
  have hd := directMatchB_normalizeS h
  unfold normalizeS normalizeCL
  rw [hstrip, httpsMatchCL_none_of_directMatchB hd, hssh, if_pos hd]
  rfl

/-- Witness for C9's idempotence part at a concrete normalized result. -/
theorem c9_format_equivalence_and_idempotence_witness :
    normalizeS "a/b" = some "a/b" :=
  (c9_format_equivalence_and_idempotence).2 "https://github.com/a/b" "a/b"
    rfl (by decide) (by decide)

/-- C4: with an authenticated session and a non-empty allow-list, a
list-issues call on a repository the access control rejects returns the
`PERMISSION_DENIED` failure whose message names the (sorted,
comma-joined) configured repositories — and the result does not depend
on the issue-fetching oracle, i.e. no GitHub API call of the handler is
made. -/
theorem c4_permission_denied_without_api_call (m : ManagerModel)
    (fetch : FetchOracle) (inputData : Dict) (repo : String)
    (hauth : m.authenticated = true)
    (hconf : m.configured_repositories ≠ [])
    (hrepo : dictGetD inputData "repository" Value.noneV = Value.str repo)
    (hne : repo ≠ "")
    (hdenied : isRepositoryAllowed m repo = false) :
    listIssuesExecute m fetch inputData =
      Except.ok (failureResult (Value.dictV
        [("message", Value.str
           ("Access to repository '" ++ repo ++ "' is not allowed. " ++
            "Configured repositories: " ++
            String.intercalate ", " (getConfiguredRepositories m))),
         ("code", Value.str "PERMISSION_DENIED")])) := by
  simp [listIssuesExecute, hauth, hrepo, pyTruthy, hne, isRepositoryAllowedValue,
    hdenied, Bind.bind, Except.bind, pure, Except.pure,
    permissionDeniedResult, valueFmt]

/-- Witness for C4 at a concrete manager, input and (unused) oracle. -/
theorem c4_permission_denied_without_api_call_witness :
    listIssuesExecute (initManager ["a/b"] true) (fun _ => Except.ok [])
      [("repository", Value.str "x/y")] =
      Except.ok (failureResult (Value.dictV
        [("message", Value.str
           ("Access to repository 'x/y' is not allowed. " ++
            "Configured repositories: a/b")),
         ("code", Value.str "PERMISSION_DENIED")])) := by
  rw [c4_permission_denied_without_api_call (initManager ["a/b"] true)
    (fun _ => Except.ok []) [("repository", Value.str "x/y")] "x/y"
    rfl (by decide) rfl (by decide) (by decide)]
  rfl

/-! ### Dictionary and replacement-loop lemmas for C5 -/

theorem dictGet_map_set_self (d : Dict) (k : String) (v : Value)
    (h : (dictGet d k).isSome) :
    dictGet (d.map (fun e => if e.1 = k then (k, v) else e)) k = some v := by
  induction d with
  | nil => simp [dictGet] at h
  | cons e rest ih =>
    rw [List.map_cons]
    by_cases he : e.1 = k
    · rw [if_pos he]
      simp [dictGet]
    · rw [if_neg he]
      rw [show dictGet
          (e :: rest.map (fun e => if e.1 = k then (k, v) else e)) k =
          dictGet (rest.map (fun e => if e.1 = k then (k, v) else e)) k from by
        simp [dictGet, he]]
      apply ih
      rw [show dictGet (e :: rest) k = dictGet rest k from by
        simp [dictGet, he]] at h
      exact h

theorem dictGet_dictSet_self (d : Dict) (k : String) (v : Value)
    (h : (dictGet d k).isSome) : dictGet (dictSet d k v) k = some v := by
  unfold dictSet
  rw [if_pos h]
  exact dictGet_map_set_self d k v h

theorem dictGet_map_set_ne (d : Dict) (k q : String) (v : Value) (h : q ≠ k) :
    dictGet (d.map (fun e => if e.1 = k then (k, v) else e)) q = dictGet d q := by
  induction d with
  | nil => rfl
  | cons e rest ih =>
    rw [List.map_cons]
    by_cases he : e.1 = k
    · rw [if_pos he]
      rw [show dictGet ((k, v) :: rest.map (fun e => if e.1 = k then (k, v) else e)) q =
          dictGet (rest.map (fun e => if e.1 = k then (k, v) else e)) q from by
        simp [dictGet, Ne.symm h]]
      rw [ih]
      have hq : e.1 ≠ q := fun hh => h (hh.symm.trans he)
      simp [dictGet, hq]
    · rw [if_neg he]
      by_cases hq : e.1 = q
      · simp [dictGet, hq]
      · rw [show dictGet (e :: rest.map (fun e => if e.1 = k then (k, v) else e)) q =
            dictGet (rest.map (fun e => if e.1 = k then (k, v) else e)) q from by
          simp [dictGet, hq]]
        rw [ih]
        simp [dictGet, hq]

theorem dictGet_append_single_ne (d : Dict) (k q : String) (v : Value) (h : q ≠ k) :
    dictGet (d ++ [(k, v)]) q = dictGet d q := by
  induction d with
  | nil => simp [dictGet, Ne.symm h]
  | cons e rest ih =>
    by_cases hq : e.1 = q
    · simp [dictGet, hq]
    · simp only [List.cons_append]
      rw [show dictGet (e :: (rest ++ [(k, v)])) q = dictGet (rest ++ [(k, v)]) q from by
        simp [dictGet, hq]]
      rw [ih]
      simp [dictGet, hq]

theorem dictGet_dictSet_ne (d : Dict) (k q : String) (v : Value) (h : q ≠ k) :
    dictGet (dictSet d k v) q = dictGet d q := by
  unfold dictSet
  split
  · exact dictGet_map_set_ne d k q v h
  · exact dictGet_append_single_ne d k q v h

theorem dictGet_resolveStringParam_ne (u : Value) (d : Dict) (p q : String)
    (h : q ≠ p) : dictGet (resolveStringParam u d p) q = dictGet d q := by
  unfold resolveStringParam
  split
  · split
    · exact dictGet_dictSet_ne d p q u h
    · rfl
  · rfl

theorem dictGet_resolveStringParam_self (u : Value) (d : Dict) (p : String) :
    dictGet (resolveStringParam u d p) p =
      match dictGet d p with
      | some v => if isAtMe v then some u else some v
      | Option.none => Option.none := by
  unfold resolveStringParam
  cases hg : dictGet d p with
  | none => exact hg
  | some v =>
    show dictGet (if isAtMe v = true then dictSet d p u else d) p =
      (if isAtMe v = true then some u else some v)
    by_cases hm : isAtMe v = true
    · rw [if_pos hm, if_pos hm]
      exact dictGet_dictSet_self d p u (by simp [hg])
    · rw [if_neg hm, if_neg hm]
      exact hg

theorem dictGet_resolveArrayParam_ne (u : Value) (d : Dict) (p q : String)
    (h : q ≠ p) : dictGet (resolveArrayParam u d p) q = dictGet d q := by
  unfold resolveArrayParam
  split
  · split
    · exact dictGet_dictSet_ne d p q _ h
    · rfl
  · rfl

theorem map_subst_eq_self (u : Value) (l : List Value) (h : l.any isAtMe = false) :
    l.map (fun v => if isAtMe v then u else v) = l := by
  induction l with
  | nil => rfl
  | cons a t ih =>
    simp only [List.any_cons, Bool.or_eq_false_iff] at h
    simp [h.1, ih h.2]

theorem dictGet_resolveArrayParam_self (u : Value) (d : Dict) (p : String) :
    dictGet (resolveArrayParam u d p) p =
      match dictGet d p with
      | some (Value.listV l) =>
        some (Value.listV (l.map (fun v => if isAtMe v then u else v)))
      | other => other := by
  unfold resolveArrayParam
  cases hg : dictGet d p with
  | none => exact hg
  | some v =>
    cases v with
    | listV l =>
      show dictGet
          (if l.any isAtMe = true then
            dictSet d p (Value.listV (l.map (fun v => if isAtMe v = true then u else v)))
          else d) p =
        some (Value.listV (l.map (fun v => if isAtMe v = true then u else v)))
      by_cases hm : l.any isAtMe = true
      · rw [if_pos hm]
        exact dictGet_dictSet_self d p _ (by simp [hg])
      · rw [if_neg hm, map_subst_eq_self u l (by simpa using hm)]
        exact hg
    | str s => exact hg
    | intV n => exact hg
    | boolV b => exact hg
    | dictV e => exact hg
    | noneV => exact hg

theorem dictGet_foldl_resolveStringParam (u : Value) (ps : List String) (d : Dict)
    (k : String) (hnd : ps.Nodup) :
    dictGet (ps.foldl (resolveStringParam u) d) k =
      if k ∈ ps then
        (match dictGet d k with
         | some v => if isAtMe v then some u else some v
         | Option.none => Option.none)
      else dictGet d k := by
  induction ps generalizing d with
  | nil => simp
  | cons p rest ih =>
    rw [List.foldl_cons]
    rw [ih _ (List.nodup_cons.mp hnd).2]
    by_cases hk : k ∈ rest
    · have hkp : k ≠ p := fun he => (List.nodup_cons.mp hnd).1 (he ▸ hk)
      rw [if_pos hk, if_pos (List.mem_cons.mpr (Or.inr hk)),
        dictGet_resolveStringParam_ne u d p k hkp]
    · rw [if_neg hk]
      by_cases hkp : k = p
      · subst hkp
        rw [dictGet_resolveStringParam_self, if_pos (List.mem_cons.mpr (Or.inl rfl))]
      · rw [dictGet_resolveStringParam_ne u d p k hkp,
          if_neg (by simp [hkp, hk])]

theorem dictGet_foldl_resolveArrayParam (u : Value) (ps : List String) (d : Dict)
    (k : String) (hnd : ps.Nodup) :
    dictGet (ps.foldl (resolveArrayParam u) d) k =
      if k ∈ ps then
        (match dictGet d k with
         | some (Value.listV l) =>
           some (Value.listV (l.map (fun v => if isAtMe v then u else v)))
         | other => other)
      else dictGet d k := by
  induction ps generalizing d with
  | nil => simp
  | cons p rest ih =>
    rw [List.foldl_cons]
    rw [ih _ (List.nodup_cons.mp hnd).2]
    by_cases hk : k ∈ rest
    · have hkp : k ≠ p := fun he => (List.nodup_cons.mp hnd).1 (he ▸ hk)
      rw [if_pos hk, if_pos (List.mem_cons.mpr (Or.inr hk)),
        dictGet_resolveArrayParam_ne u d p k hkp]
    · rw [if_neg hk]
      by_cases hkp : k = p
      · subst hkp
        rw [dictGet_resolveArrayParam_self, if_pos (List.mem_cons.mpr (Or.inl rfl))]
      · rw [dictGet_resolveArrayParam_ne u d p k hkp,
          if_neg (by simp [hkp, hk])]

theorem applyResolution_dictGet (u : Value) (d : Dict) (k : String) :
    dictGet (applyResolution u d) k =
      if k ∈ STRING_USERNAME_PARAMS then
        (match dictGet d k with
         | some v => if isAtMe v then some u else some v
         | Option.none => Option.none)
      else if k ∈ ARRAY_USERNAME_PARAMS then
        (match dictGet d k with
         | some (Value.listV l) =>
           some (Value.listV (l.map (fun v => if isAtMe v then u else v)))
         | other => other)
      else dictGet d k := by
  unfold applyResolution
  rw [dictGet_foldl_resolveArrayParam u _ _ k (by decide),
    dictGet_foldl_resolveStringParam u _ _ k (by decide)]
  by_cases hs : k ∈ STRING_USERNAME_PARAMS
  · have ha : k ∉ ARRAY_USERNAME_PARAMS := by
      simp only [STRING_USERNAME_PARAMS, List.mem_cons, List.not_mem_nil,
        or_false] at hs
      rcases hs with rfl | rfl | rfl | rfl <;> decide
    simp [hs, ha]
  · by_cases ha : k ∈ ARRAY_USERNAME_PARAMS
    · simp [hs, ha]
    · simp [hs, ha]

theorem foldl_resolveStringParam_id (u : Value) (ps : List String) (d : Dict)
    (h : ∀ p ∈ ps,
      (match dictGet d p with | some v => isAtMe v | Option.none => false) = false) :
    ps.foldl (resolveStringParam u) d = d := by
  induction ps with
  | nil => rfl
  | cons p rest ih =>
    rw [List.foldl_cons]
    have hstep : resolveStringParam u d p = d := by
      unfold resolveStringParam
      cases hg : dictGet d p with
      | none => rfl
      | some v =>
        have hthis := h p (List.mem_cons.mpr (Or.inl rfl))
        rw [hg] at hthis
        have hv : isAtMe v = false := hthis
        show (if isAtMe v = true then dictSet d p u else d) = d
        rw [if_neg (by simp [hv])]
    rw [hstep]
    exact ih (fun q hq => h q (List.mem_cons.mpr (Or.inr hq)))

theorem foldl_resolveArrayParam_id (u : Value) (ps : List String) (d : Dict)
    (h : ∀ p ∈ ps,
      (match dictGet d p with
       | some (Value.listV l) => l.any isAtMe
       | _ => false) = false) :
    ps.foldl (resolveArrayParam u) d = d := by
  induction ps with
  | nil => rfl
  | cons p rest ih =>
    rw [List.foldl_cons]
    have hstep : resolveArrayParam u d p = d := by
      unfold resolveArrayParam
      cases hg : dictGet d p with
      | none => rfl
      | some v =>
        cases v with
        | listV l =>
          have hthis := h p (List.mem_cons.mpr (Or.inl rfl))
          rw [hg] at hthis
          have hl : l.any isAtMe = false := hthis
          show (if l.any isAtMe = true then
              dictSet d p (Value.listV (l.map (fun v => if isAtMe v = true then u else v)))
            else d) = d
          rw [if_neg (by simp [hl])]
        | str s => rfl
        | intV n => rfl
        | boolV b => rfl
        | dictV e => rfl
        | noneV => rfl
    rw [hstep]
    exact ih (fun q hq => h q (List.mem_cons.mpr (Or.inr hq)))

theorem applyResolution_of_not_needs (u : Value) (d : Dict)
    (h : needsResolution d = false) : applyResolution u d = d := by
  unfold needsResolution at h
  rw [Bool.or_eq_false_iff] at h
  unfold applyResolution
  rw [foldl_resolveStringParam_id u _ d (by
    intro p hp
    have := List.any_eq_false.mp h.1 p hp
    cases hg : dictGet d p with
    | none => rfl
    | some v => rw [hg] at this; simpa using this)]
  apply foldl_resolveArrayParam_id
  intro p hp
  have := List.any_eq_false.mp h.2 p hp
  cases hg : dictGet d p with
  | none => rfl
  | some v =>
    cases v with
    | listV l => rw [hg] at this; simpa using this
    | str s => rfl
    | intV n => rfl
    | boolV b => rfl
    | dictV e => rfl
    | noneV => rfl

/-- C5: the `@me` pass resolves the authenticated identity at most once
per call and not at all when no `@me` is present; on success every
occurrence in the string and array username parameters is replaced with
the authenticated username (all other keys untouched) before the handler
runs; if the identity lookup fails, the whole call returns the
`AUTHENTICATION_ERROR` failure with the original (unresolved)
parameters, and the handler is never invoked. -/
theorem c5_at_me_replacement (getUser : UserOracle) (params : Dict) :
    ((resolveUsernameInParameters getUser params).2 ≤ 1) ∧
    (needsResolution params = false →
      resolveUsernameInParameters getUser params = ((params, Option.none), 0)) ∧
    (∀ msg ty, needsResolution params = true → getUser = Except.error (msg, ty) →
      resolveUsernameInParameters getUser params =
        ((params, some (atMeFailure msg ty)), 1)) ∧
    (∀ u, needsResolution params = true → getUser = Except.ok u →
      resolveUsernameInParameters getUser params =
        ((applyResolution (Value.str u) params, Option.none), 1)) ∧
    (∀ (u : String) (k : String), k ∈ STRING_USERNAME_PARAMS →
      dictGet (applyResolution (Value.str u) params) k =
        (match dictGet params k with
         | some v => if isAtMe v then some (Value.str u) else some v
         | Option.none => Option.none)) ∧
    (∀ (u : String) (k : String), k ∈ ARRAY_USERNAME_PARAMS →
      dictGet (applyResolution (Value.str u) params) k =
        (match dictGet params k with
         | some (Value.listV l) =>
           some (Value.listV (l.map (fun v => if isAtMe v then Value.str u else v)))
         | other => other)) ∧
    (∀ (u : String) (k : String),
      k ∉ STRING_USERNAME_PARAMS → k ∉ ARRAY_USERNAME_PARAMS →
      dictGet (applyResolution (Value.str u) params) k = dictGet params k) ∧
    (∀ (tools : List (String × Handler)) (ps : Dict) (opName msg ty : String),
      dictGet ps "operation" = some (Value.str opName) → opName ≠ "" →
      dictGet ps "parameters" = some (Value.dictV params) →
      needsResolution params = true → getUser = Except.error (msg, ty) →
      executeUnified ⟨tools, getUser⟩ (Value.dictV ps) = atMeFailure msg ty) ∧
    (∀ (tools : List (String × Handler)) (ps : Dict) (opName : String)
        (u : String) (handler : Handler),
      dictGet ps "operation" = some (Value.str opName) → opName ≠ "" →
      dictGet ps "parameters" = some (Value.dictV params) →
      handlersGet tools opName = some handler →
      needsResolution params = true → getUser = Except.ok u →
      executeUnified ⟨tools, getUser⟩ (Value.dictV ps) =
        (match handler (applyResolution (Value.str u) params) with
         | Except.ok r => r
         | Except.error e =>
           failureResult (toolExecutionErrorDict "github"
             ("Unexpected error: " ++ pyExnMsg e)))) := by
  refine ⟨?_, ?_, ?_, ?_, ?_, ?_, ?_, ?_, ?_⟩
  · unfold resolveUsernameInParameters
    by_cases hn : needsResolution params
    · cases getUser with
      | ok u => simp [hn]
      | error e => simp [hn]
    · simp [hn]
  · intro hn
    simp [resolveUsernameInParameters, hn, applyResolution_of_not_needs]
  · intro msg ty hn herr
    simp [resolveUsernameInParameters, hn, herr]
  · intro u hn hok
    simp [resolveUsernameInParameters, hn, hok]
  · intro u k hk
    rw [applyResolution_dictGet, if_pos hk]
  · intro u k hk
    have hs : k ∉ STRING_USERNAME_PARAMS := by
      simp only [ARRAY_USERNAME_PARAMS, List.mem_cons, List.not_mem_nil,
        or_false] at hk
      rcases hk with rfl | rfl | rfl | rfl <;> decide
    rw [applyResolution_dictGet, if_neg hs, if_pos hk]
  · intro u k hks hka
    rw [applyResolution_dictGet, if_neg hks, if_neg hka]
  · intro tools ps opName msg ty hop hne hpar hn herr
    have hbody : executeBody ⟨tools, getUser⟩ (Value.dictV ps) =
        Except.ok (atMeFailure msg ty) := by
      simp only [executeBody, valueGetD, dictGetD, hop, hpar, Bind.bind,
        Except.bind]
      simp [pyTruthy, hne, resolveUsernameInParameters, hn, herr, pure,
        Except.pure]
    simp [executeUnified, hbody]
  · intro tools ps opName u handler hop hne hpar hhand hn hok
    have hbody : executeBody ⟨tools, getUser⟩ (Value.dictV ps) =
        handler (applyResolution (Value.str u) params) := by
      simp only [executeBody, valueGetD, dictGetD, hop, hpar, Bind.bind,
        Except.bind]
      simp [pyTruthy, hne, resolveUsernameInParameters, hn, hok,
        toolsGetValue, hhand, pure, Except.pure]
      cases handler (applyResolution (Value.str u) params) with
      | ok r => rfl
      | error e => rfl
    cases hres : handler (applyResolution (Value.str u) params) with
    | ok r => rw [executeUnified, hbody, hres]
    | error e => rw [executeUnified, hbody, hres]

/-- Witness for C5: a single `assignee=@me` parameter with a resolvable
identity `octocat` is substituted, with exactly one lookup. -/
theorem c5_at_me_replacement_witness :
    resolveUsernameInParameters (Except.ok "octocat")
      [("assignee", Value.str "@me")] =
      ((applyResolution (Value.str "octocat") [("assignee", Value.str "@me")],
        Option.none), 1) ∧
    dictGet (applyResolution (Value.str "octocat")
      [("assignee", Value.str "@me")]) "assignee" = some (Value.str "octocat") := by
  have h := c5_at_me_replacement (Except.ok "octocat") [("assignee", Value.str "@me")]
  exact ⟨h.2.2.2.1 "octocat" (by decide) rfl,
    (h.2.2.2.2.1 "octocat" "assignee" (by decide)).trans (by rfl)⟩

/-! ### Fan-out lemmas for C6 -/

theorem issuesLoop_errs_shift (fetch : FetchOracle) (limit : Value)
    (repos : List Value) (acc : List Value) (errs : List (Value × String)) :
    issuesLoop fetch limit repos acc errs =
      (issuesLoop fetch limit repos acc []).map (fun p => (p.1, errs ++ p.2)) := by
  induction repos generalizing acc errs with
  | nil => simp [issuesLoop, Except.map]
  | cons r rest ih =>
    simp only [issuesLoop]
    cases hfc : fetchAndCollect fetch limit r acc with
    | error e =>
      cases e with
      | repoNotFound s =>
        simp only []
        rw [ih acc (errs ++ [(r, pyExnMsg (PyExn.repoNotFound s))])]
        simp only [List.nil_append]
        rw [ih acc [(r, pyExnMsg (PyExn.repoNotFound s))]]
        cases issuesLoop fetch limit rest acc [] <;> simp [Except.map]
      | githubExc msg =>
        simp only []
        rw [ih acc (errs ++ [(r, msg)])]
        simp only [List.nil_append]
        rw [ih acc [(r, msg)]]
        cases issuesLoop fetch limit rest acc [] <;> simp [Except.map]
      | rateLimit t => simp [Except.map]
      | exc ty msg => simp [Except.map]
    | ok acc' =>
      simp only []
      cases hge : pyLenGe acc'.length limit with
      | error e => simp [Except.map]
      | ok b =>
        cases b with
        | true => simp [Except.map]
        | false =>
          simp only []
          exact ih acc' errs

theorem issuesLoop_fst_errs (fetch : FetchOracle) (limit : Value)
    (repos : List Value) (acc : List Value) (errs : List (Value × String)) :
    (issuesLoop fetch limit repos acc errs).map Prod.fst =
      (issuesLoop fetch limit repos acc []).map Prod.fst := by
  rw [issuesLoop_errs_shift]
  cases issuesLoop fetch limit repos acc [] <;> rfl

theorem issuesLoop_notFound_step (fetch : FetchOracle) (limit : Value)
    (r : Value) (rest : List Value) (acc : List Value)
    (errs : List (Value × String)) (s : String)
    (hf : fetch r = Except.error (PyExn.repoNotFound s)) :
    issuesLoop fetch limit (r :: rest) acc errs =
      issuesLoop fetch limit rest acc
        (errs ++ [(r, pyExnMsg (PyExn.repoNotFound s))]) := by
  simp [issuesLoop, fetchAndCollect, hf]

theorem issuesLoop_githubExc_step (fetch : FetchOracle) (limit : Value)
    (r : Value) (rest : List Value) (acc : List Value)
    (errs : List (Value × String)) (msg : String)
    (hf : fetch r = Except.error (PyExn.githubExc msg)) :
    issuesLoop fetch limit (r :: rest) acc errs =
      issuesLoop fetch limit rest acc (errs ++ [(r, msg)]) := by
  simp [issuesLoop, fetchAndCollect, hf]

theorem issuesLoop_skip_failed (fetch : FetchOracle) (limit : Value)
    (pre post : List Value) (r : Value) (acc : List Value)
    (errs : List (Value × String)) (e : PyExn)
    (hf : fetch r = Except.error e)
    (hnf : (∃ s, e = PyExn.repoNotFound s) ∨ (∃ msg, e = PyExn.githubExc msg)) :
    (issuesLoop fetch limit (pre ++ r :: post) acc errs).map Prod.fst =
      (issuesLoop fetch limit (pre ++ post) acc errs).map Prod.fst := by
  induction pre generalizing acc errs with
  | nil =>
    simp only [List.nil_append]
    rcases hnf with ⟨s, rfl⟩ | ⟨msg, rfl⟩
    · rw [issuesLoop_notFound_step fetch limit r post acc errs s hf,
        issuesLoop_fst_errs, issuesLoop_fst_errs fetch limit post acc errs]
    · rw [issuesLoop_githubExc_step fetch limit r post acc errs msg hf,
        issuesLoop_fst_errs, issuesLoop_fst_errs fetch limit post acc errs]
  | cons q pre' ih =>
    simp only [List.cons_append, issuesLoop]
    cases hfc : fetchAndCollect fetch limit q acc with
    | error e' =>
      cases e' with
      | repoNotFound s => exact ih acc _
      | githubExc msg => exact ih acc _
      | rateLimit t => rfl
      | exc ty msg => rfl
    | ok acc' =>
      simp only []
      cases hge : pyLenGe acc'.length limit with
      | error e' => rfl
      | ok b =>
        cases b with
        | true => rfl
        | false =>
          simp only []
          exact ih acc' errs

theorem listIssuesExecute_fanout_success (m : ManagerModel) (fetch : FetchOracle)
    (inputData : Dict) (iss : List Value) (errs : List (Value × String))
    (hauth : m.authenticated = true)
    (hrep : pyTruthy (dictGetD inputData "repository" Value.noneV) = false)
    (hconf : (getConfiguredRepositories m).isEmpty = false)
    (hloop : issuesLoop fetch (dictGetD inputData "limit" (Value.intV 30))
      ((getConfiguredRepositories m).map Value.str) [] [] = Except.ok (iss, errs)) :
    listIssuesExecute m fetch inputData =
      Except.ok (listIssuesSuccess ((getConfiguredRepositories m).map Value.str)
        (dictGetD inputData "state" (Value.str "open")) iss errs) := by
  simp [listIssuesExecute, hauth, hrep, hconf, runIssuesQuery, hloop]

/-- C6 (counterexample): a rate-limit failure on one configured
repository aborts the whole fan-out with a failure result, discarding
the issues already collected from the other repository instead of
recording the failure in the `errors` side channel of a success
result. -/
theorem c6_rate_limit_suppresses_counterexample :
    listIssuesExecute (initManager ["a/a", "b/b"] true)
      (fun v =>
        match v with
        | Value.str "b/b" => Except.error (PyExn.rateLimit "soon")
        | _ => Except.ok [⟨false, Value.intV 1, Value.str "t", Value.str "open",
            Value.noneV, Value.noneV, Value.noneV, Value.noneV, Value.listV [],
            Value.listV [], Value.intV 0, Value.str "u"⟩]) [] =
      Except.ok (failureResult (Value.dictV
        [("message", Value.str "GitHub API rate limit exceeded. Resets at: soon"),
         ("code", Value.str "RATE_LIMIT_EXCEEDED")])) ∧
    ((fun v =>
        match v with
        | Value.str "b/b" => Except.error (PyExn.rateLimit "soon")
        | _ => Except.ok [⟨false, Value.intV 1, Value.str "t", Value.str "open",
            Value.noneV, Value.noneV, Value.noneV, Value.noneV, Value.listV [],
            Value.listV [], Value.intV 0, Value.str "u"⟩]) : FetchOracle)
      (Value.str "a/a") =
      Except.ok [⟨false, Value.intV 1, Value.str "t", Value.str "open",
        Value.noneV, Value.noneV, Value.noneV, Value.noneV, Value.listV [],
        Value.listV [], Value.intV 0, Value.str "u"⟩] :=
  ⟨rfl, rfl⟩

/-- C6 (amended): during fan-out, a per-repository `RepositoryNotFoundError`
or `GithubException` is appended to the `errors` side channel and the
iteration continues; such a failure never suppresses the issues obtained
from the other repositories; and the loop's outcome is wrapped in a
success result.  (A `RateLimitError` is not caught by the inner
`except` and aborts the whole call — see the counterexample.) -/
theorem c6_fanout_failure_isolation :
    (∀ (fetch : FetchOracle) (limit : Value) (r : Value) (rest : List Value)
       (acc : List Value) (errs : List (Value × String)) (s : String),
       fetch r = Except.error (PyExn.repoNotFound s) →
       issuesLoop fetch limit (r :: rest) acc errs =
         issuesLoop fetch limit rest acc
           (errs ++ [(r, pyExnMsg (PyExn.repoNotFound s))])) ∧
    (∀ (fetch : FetchOracle) (limit : Value) (r : Value) (rest : List Value)
       (acc : List Value) (errs : List (Value × String)) (msg : String),
       fetch r = Except.error (PyExn.githubExc msg) →
       issuesLoop fetch limit (r :: rest) acc errs =
         issuesLoop fetch limit rest acc (errs ++ [(r, msg)])) ∧
    (∀ (fetch : FetchOracle) (limit : Value) (pre post : List Value) (r : Value)
       (acc : List Value) (errs : List (Value × String)) (e : PyExn),
       fetch r = Except.error e →
       (∃ s, e = PyExn.repoNotFound s) ∨ (∃ msg, e = PyExn.githubExc msg) →
       (issuesLoop fetch limit (pre ++ r :: post) acc errs).map Prod.fst =
         (issuesLoop fetch limit (pre ++ post) acc errs).map Prod.fst) ∧
    (∀ (m : ManagerModel) (fetch : FetchOracle) (inputData : Dict)
       (iss : List Value) (errs : List (Value × String)),
       m.authenticated = true →
       pyTruthy (dictGetD inputData "repository" Value.noneV) = false →
       (getConfiguredRepositories m).isEmpty = false →
       issuesLoop fetch (dictGetD inputData "limit" (Value.intV 30))
         ((getConfiguredRepositories m).map Value.str) [] [] = Except.ok (iss, errs) →
       listIssuesExecute m fetch inputData =
         Except.ok (listIssuesSuccess ((getConfiguredRepositories m).map Value.str)
           (dictGetD inputData "state" (Value.str "open")) iss errs)) :=
  ⟨issuesLoop_notFound_step, issuesLoop_githubExc_step,
    fun fetch limit pre post r acc errs e hf hnf =>
      issuesLoop_skip_failed fetch limit pre post r acc errs e hf hnf,
    fun m fetch inputData iss errs hauth hrep hconf hloop =>
      listIssuesExecute_fanout_success m fetch inputData iss errs hauth hrep hconf hloop⟩

/-- Witness for C6: a concrete two-repository fan-out where the first
repository is not found — its error is collected and the second
repository's issue still appears in a success result. -/
theorem c6_fanout_failure_isolation_witness :
    listIssuesExecute (initManager ["a/a", "b/b"] true)
      (fun v =>
        match v with
        | Value.str "a/a" => Except.error (PyExn.repoNotFound "a/a")
        | _ => Except.ok [⟨false, Value.intV 1, Value.str "t", Value.str "open",
            Value.noneV, Value.noneV, Value.noneV, Value.noneV, Value.listV [],
            Value.listV [], Value.intV 0, Value.str "u"⟩]) [] =
      Except.ok (listIssuesSuccess [Value.str "a/a", Value.str "b/b"]
        (Value.str "open")
        [issueData (Value.str "b/b")
          ⟨false, Value.intV 1, Value.str "t", Value.str "open",
            Value.noneV, Value.noneV, Value.noneV, Value.noneV, Value.listV [],
            Value.listV [], Value.intV 0, Value.str "u"⟩]
        [(Value.str "a/a", "Repository not found or not accessible: a/a")]) := by
  exact (c6_fanout_failure_isolation).2.2.2
    (initManager ["a/a", "b/b"] true) _ [] _ _ rfl rfl rfl rfl

/-! ### Store lemmas for C10 -/

theorem foldl_preserves {α β : Type} (P : β → Prop) (f : β → α → β)
    (l : List α) (b : β) (hb : P b) (hf : ∀ b x, P b → P (f b x)) :
    P (l.foldl f b) := by
  induction l generalizing b with
  | nil => exact hb
  | cons x xs ih => exact ih _ (hf b x hb)

theorem getElem?_append_lt (l t : List PyObj) (i : Nat) (h : i < l.length) :
    (l ++ t)[i]? = l[i]? := by
  rw [List.getElem?_append, if_pos h]

/-- The invariant carried across the replacement loops: the store still
agrees with the original store `h0` on all original addresses, and is at
least as long. -/
def StorePres (h0 g : Store) : Prop :=
  (∀ i, i < h0.length → g[i]? = h0[i]?) ∧ h0.length ≤ g.length

theorem stringLoopStore_frame (u : String) (h0 g : Store) (rp : Nat)
    (hrp : h0.length ≤ rp) (hg : StorePres h0 g) :
    StorePres h0 (stringLoopStore u g rp) := by
  unfold stringLoopStore
  refine foldl_preserves (StorePres h0) _ _ g hg ?_
  intro g' p hP
  cases g'[rp]? with
  | none => exact hP
  | some o =>
    cases o with
    | listO l => exact hP
    | dictO es =>
      simp only []
      cases entriesGet es p with
      | none => exact hP
      | some v =>
        simp only []
        by_cases hm : isAtMeP v = true
        · simp only [hm, if_pos]
          refine ⟨fun i hi => ?_, by simpa using hP.2⟩
          rw [List.getElem?_set_ne (Ne.symm (Nat.ne_of_lt (Nat.lt_of_lt_of_le hi hrp)))]
          exact hP.1 i hi
        · simp only [hm, Bool.false_eq_true, if_false]
          exact hP

theorem arrayLoopStore_frame (u : String) (h0 g : Store) (rp : Nat)
    (hrp : h0.length ≤ rp) (hg : StorePres h0 g) :
    StorePres h0 (arrayLoopStore u g rp) := by
  unfold arrayLoopStore
  refine foldl_preserves (StorePres h0) _ _ g hg ?_
  intro g' p hP
  cases g'[rp]? with
  | none => exact hP
  | some o =>
    cases o with
    | listO l => exact hP
    | dictO es =>
      simp only []
      cases entriesGet es p with
      | none => exact hP
      | some v =>
        cases v with
        | ref a =>
          simp only []
          cases g'[a]? with
          | none => exact hP
          | some o' =>
            cases o' with
            | dictO es' => exact hP
            | listO l =>
              simp only []
              by_cases hm : l.any isAtMeP = true
              · simp only [hm, if_pos]
                constructor
                · intro i hi
                  rw [List.getElem?_set_ne
                    (Ne.symm (Nat.ne_of_lt (Nat.lt_of_lt_of_le hi hrp)))]
                  rw [getElem?_append_lt _ _ i (Nat.lt_of_lt_of_le hi hP.2)]
                  exact hP.1 i hi
                · rw [List.length_set]
                  simp only [List.length_append, List.length_cons, List.length_nil]
                  have := hP.2
                  omega
              · simp only [hm, Bool.false_eq_true, if_false]
                exact hP
        | str s => exact hP
        | intV n => exact hP
        | boolV b => exact hP
        | noneV => exact hP

set_option maxHeartbeats 800000 in
/-- C10: the username-normalization pass never mutates the caller's
objects: every address that existed before the call still holds exactly
the object it held before (the returned mapping is a fresh shallow copy,
and rebuilt array values are fresh lists); on success the returned
mapping is the fresh copy (a new address), and on an identity-lookup
failure the original `parameters` address is returned with the
`AUTHENTICATION_ERROR` result. -/
theorem c10_resolve_username_frame (getUser : UserOracle) (h : Store) (p : Nat) :
    (∀ i, i < h.length → ((resolveUsernameStore getUser h p).1)[i]? = h[i]?) ∧
    (∀ es, h[p]? = some (PyObj.dictO es) →
      (resolveUsernameStore getUser h p).2.2 = Option.none →
      (resolveUsernameStore getUser h p).2.1 = h.length) ∧
    (∀ es msg ty, h[p]? = some (PyObj.dictO es) →
      needsResolutionStore h es = true → getUser = Except.error (msg, ty) →
      (resolveUsernameStore getUser h p).2.1 = p ∧
      (resolveUsernameStore getUser h p).2.2 = some (atMeFailure msg ty)) := by
  cases hp : h[p]? with
  | none =>
    have hres : resolveUsernameStore getUser h p = (h, p, Option.none) := by
      unfold resolveUsernameStore
      rw [hp]
    exact ⟨fun i hi => by rw [hres], fun es hes => Option.noConfusion hes,
      fun es msg ty hes => Option.noConfusion hes⟩
  | some o =>
    cases o with
    | listO l =>
      have hres : resolveUsernameStore getUser h p = (h, p, Option.none) := by
        unfold resolveUsernameStore
        rw [hp]
      exact ⟨fun i hi => by rw [hres], fun es hes => absurd hes (by simp),
        fun es msg ty hes => absurd hes (by simp)⟩
    | dictO es0 =>
      by_cases hn : needsResolutionStore h es0 = true
      · cases hgu : getUser with
        | error pr =>
          obtain ⟨msg0, ty0⟩ := pr
          have hres : resolveUsernameStore (Except.error (msg0, ty0)) h p =
              (h ++ [PyObj.dictO es0], p, some (atMeFailure msg0 ty0)) := by
            unfold resolveUsernameStore
            rw [hp]
            simp only [hn, if_pos]
          refine ⟨fun i hi => ?_, fun es hes herr => ?_, fun es msg ty hes hneed hgu2 => ?_⟩
          · rw [hres]
            exact getElem?_append_lt h _ i hi
          · rw [hres] at herr
            exact Option.noConfusion herr
          · injection hgu2 with hpair
            cases hpair
            exact ⟨by rw [hres], by rw [hres]⟩
        | ok u =>
          obtain ⟨g, hg⟩ : ∃ g,
              arrayLoopStore u (stringLoopStore u (h ++ [PyObj.dictO es0]) h.length)
                h.length = g := ⟨_, rfl⟩
          have hres : resolveUsernameStore (Except.ok u) h p =
              (g, h.length, Option.none) := by
            unfold resolveUsernameStore
            rw [hp]
            simp only [hn, if_pos]
            rw [hg]
          have hp1 : StorePres h (h ++ [PyObj.dictO es0]) :=
            ⟨fun i hi => getElem?_append_lt h _ i hi, by simp⟩
          have hp2 := stringLoopStore_frame u h _ h.length (Nat.le_refl _) hp1
          have hp3 := arrayLoopStore_frame u h _ h.length (Nat.le_refl _) hp2
          rw [hg] at hp3
          refine ⟨fun i hi => ?_, fun es hes herr => ?_, fun es msg ty hes hneed hgu2 => ?_⟩
          · rw [hres]
            exact hp3.1 i hi
          · rw [hres]
          · exact Except.noConfusion hgu2
      · have hres : resolveUsernameStore getUser h p =
            (h ++ [PyObj.dictO es0], h.length, Option.none) := by
          unfold resolveUsernameStore
          rw [hp]
          simp only []
          rw [if_neg hn]
        refine ⟨fun i hi => ?_, fun es hes herr => by rw [hres],
          fun es msg ty hes hneed hgu2 => ?_⟩
        · rw [hres]
          exact getElem?_append_lt h _ i hi
        · have hes' : es0 = es := by
            injection hes with hobj
            injection hobj
          rw [← hes'] at hneed
          exact absurd hneed hn

/-- Witness for C10 at a concrete store: a parameters dict holding an
`assignees` list with `@me`; the caller's dict at address 0 and list at
address 1 are unchanged, and the returned mapping is fresh. -/
theorem c10_resolve_username_frame_witness :
    ((resolveUsernameStore (Except.ok "octocat")
        [PyObj.dictO [("assignees", PyVal.ref 1)],
         PyObj.listO [PyVal.str "@me", PyVal.str "alice"]] 0).1)[0]? =
      some (PyObj.dictO [("assignees", PyVal.ref 1)]) ∧
    ((resolveUsernameStore (Except.ok "octocat")
        [PyObj.dictO [("assignees", PyVal.ref 1)],
         PyObj.listO [PyVal.str "@me", PyVal.str "alice"]] 0).1)[1]? =
      some (PyObj.listO [PyVal.str "@me", PyVal.str "alice"]) ∧
    (resolveUsernameStore (Except.ok "octocat")
        [PyObj.dictO [("assignees", PyVal.ref 1)],
         PyObj.listO [PyVal.str "@me", PyVal.str "alice"]] 0).2.1 = 2 := by
  have h := c10_resolve_username_frame (Except.ok "octocat")
    [PyObj.dictO [("assignees", PyVal.ref 1)],
     PyObj.listO [PyVal.str "@me", PyVal.str "alice"]] 0
  exact ⟨(h.1 0 (by decide)).trans rfl, (h.1 1 (by decide)).trans rfl,
    h.2.1 [("assignees", PyVal.ref 1)] rfl rfl⟩

end GitHubTool
